import Mathlib

/-!
# Verification of the Kirk-Cataloger backend (`src/backend/server.py`)

A shallow embedding of the playlist-cataloging backend: the Redis-backed
state (catalog snapshot, progress record, viewer/connection counter) is a
`Store` record for one playlist identifier (every Redis key in the source is
keyed by the single `playlistId`, so the per-identifier state is modelled
directly).  The store helpers (`saveCatalog`, `saveProgress`,
`clearProgress`, `incrementConnections`, `decrementConnections`), the
enrichment run (`processPlaylist`, whose per-entry loop is
`processPlaylistLoop`), and the start-run handler (`startProcess`) are
translated line by line from the source.  External collaborators (the
YouTube playlist fetch and the MusicBrainz lookup) are parameters: the fetch
outcome is an `Option (List RawItem)` and the per-entry lookup outcome an
oracle `Nat → LookupOutcome`.  Concurrent mutation of the shared store by
other tasks (stream observers detaching, the cancel endpoint) is modelled by
an interference function applied before each loop iteration's re-read of the
progress record.  Handlers and the run produce an event trace (`Ev`)
recording, in execution order, collaborator invocations, persisted writes,
teardowns and the HTTP response, so that temporal claims are statements
about trace order.  Wall-clock data (the `timestamp` field, TTL expiry,
`time.sleep` pacing) is not modelled: no claim depends on real time.
-/

/-- The fetch-time `date` field is an optional year extracted from the
title (`filterDate`, an `int` or `None` in Python); enrichment overwrites it
with the free-form date string of the MusicBrainz match (server.py line
163).  The Python dict field therefore ranges over three shapes. -/
inductive DateField
  | year (y : Nat)
  | noYear
  | fromLookup (s : String)
deriving DecidableEq, Repr

/-- One catalog entry: the dict built in `playlistData` (server.py lines
201-212), possibly updated in place by the enrichment loop (lines 159-166).
`score` is a float in the source (`float(bestMatch.get('ext:score', 0))`);
no arithmetic is ever performed on it, so it is carried as an integer
magnitude here. -/
structure Entry where
  position : Nat
  score : Int
  title : String
  artist : String
  date : DateField
  type : String
  mbid : String
  ytname : String
  ytlink : String
  channel : String
deriving DecidableEq, Repr

/-- The progress dict written by `saveProgress` (server.py lines 96-109).
The `timestamp` field (`time.time()`) is wall-clock data and is omitted:
no claim inspects it. -/
structure ProgressRecord where
  status : String
  currentItem : Nat
  totalItems : Nat
  activeConnections : Int
deriving DecidableEq, Repr

/-- The per-identifier slice of the Redis store: the `catalog:{id}`,
`progress:{id}` and `connections:{id}` keys.  `none` is an absent key.
The connections key is a Redis integer counter (INCR/DECR), hence `Int`:
DECR of an absent key yields `-1`. -/
structure Store where
  catalog : Option (List Entry)
  progress : Option ProgressRecord
  connections : Option Int
deriving DecidableEq, Repr

/-- The store with no keys set for the identifier. -/
def emptyStore : Store := ⟨none, none, none⟩

/-- Embeds `saveCatalog` (server.py lines 86-87): SETEX of the full snapshot,
overwriting any prior value.  The TTL refresh is wall-clock behaviour and
not modelled. -/
def saveCatalog (catalog : List Entry) (s : Store) : Store :=
  { s with catalog := some catalog }

/-- Embeds `getCatalog` (server.py lines 89-91): the snapshot or absent. -/
def getCatalog (s : Store) : Option (List Entry) :=
  s.catalog

/-- Embeds `clearCatalog` (server.py lines 93-94). -/
def clearCatalog (s : Store) : Store :=
  { s with catalog := none }

/-- Embeds `saveProgress` (server.py lines 96-109): reads the current connections
key (absent read as 0, via `int(activeConns if activeConns else 0)`) and
writes the progress record with that count embedded.  The source declares
Python default arguments `currentItem=0, totalItems=0, status='inProgress'`;
every call site passes all three explicitly, so defaults are not modelled. -/
def saveProgress (currentItem totalItems : Nat) (status : String) (s : Store) : Store :=
  let pr0 : ProgressRecord :=
    { status := status
      currentItem := currentItem
      totalItems := totalItems
      activeConnections := s.connections.getD 0 }
  { s with progress := some pr0 }

/-- Embeds `getProgress` (server.py lines 111-113). -/
def getProgress (s : Store) : Option ProgressRecord :=
  s.progress

/-- Embeds `clearProgress` (server.py lines 115-119): deletes the progress record,
the connections key, and the catalog snapshot — the full teardown of all
three entity kinds. -/
def clearProgress (s : Store) : Store :=
  { s with progress := none, connections := none, catalog := none }

/-- Embeds `incrementConnections` (server.py lines 121-122): Redis INCR, which
treats an absent key as 0; returns the new value. -/
def incrementConnections (s : Store) : Store × Int :=
  let n := s.connections.getD 0 + 1
  ({ s with connections := some n }, n)

/-- Embeds `decrementConnections` (server.py lines 124-132): Redis DECR (absent
key treated as 0, so the result may be negative); if the result is ≤ 0 the
connections key is deleted and, when a non-completed progress record
exists, full teardown (`clearProgress`) runs.  Returns the decremented
value, as the source does. -/
def decrementConnections (s : Store) : Store × Int :=
  let current := s.connections.getD 0 - 1
  let s1 : Store := { s with connections := some current }
  if current ≤ 0 then
    let s2 : Store := { s1 with connections := none }
    match getProgress s2 with
    | some p => if p.status ≠ "completed" then (clearProgress s2, current) else (s2, current)
    | none => (s2, current)
  else
    (s1, current)

/-- The viewer-count invariant of claim C10: the persisted connections key
is either absent or holds a strictly positive integer. -/
def connInv (s : Store) : Prop :=
  s.connections = none ∨ ∃ n : Int, s.connections = some n ∧ 0 < n

instance (s : Store) : Decidable (connInv s) := by
  unfold connInv
  cases h : s.connections with
  | none => exact isTrue (Or.inl rfl)
  | some n =>
    by_cases hn : 0 < n
    · exact isTrue (Or.inr ⟨n, rfl, hn⟩)
    · refine isFalse ?_
      rintro (h1 | ⟨m, hm, hmpos⟩)
      · exact Option.noConfusion h1
      · exact hn (by cases hm; exact hmpos)

/-- ASCII word character, the `\w` class of the source's regexes
(`[a-zA-Z0-9_]`), used to model the `\b` word-boundary assertions. -/
def isWordChar (c : Char) : Bool :=
  c.isAlpha || c.isDigit || c = '_'

/-- One step of `re.search(r'\b(19|20)\d{2}\b', title)` (server.py line
67): does a year match start at the head of `cs`, given the character
immediately before it (`none` at the start of the string)?  The first
matched character is a digit, so the leading `\b` holds iff the previous
character is absent or a non-word character; symmetrically for the trailing
`\b`. -/
def yearAt (prev : Option Char) (cs : List Char) : Option Nat :=
  match cs with
  | c1 :: c2 :: c3 :: c4 :: rest =>
    if (match prev with | none => true | some p => !isWordChar p) &&
       ((c1 = '1' && c2 = '9') || (c1 = '2' && c2 = '0')) &&
       c3.isDigit && c4.isDigit &&
       (match rest with | [] => true | r :: _ => !isWordChar r)
    then some ((c1.toNat - 48) * 1000 + (c2.toNat - 48) * 100 +
               (c3.toNat - 48) * 10 + (c4.toNat - 48))
    else none
  | _ => none

/-- Left-to-right scan for the first year match, carrying the previous
character for the boundary test: the leftmost-match semantics of
`re.search`. -/
def findYear : Option Char → List Char → Option Nat
  | _, [] => none
  | prev, c :: rest =>
    match yearAt prev (c :: rest) with
    | some y => some y
    | none => findYear (some c) rest

/-- Embeds `filterDate` (server.py lines 66-70): the first `\b(19|20)\d{2}\b`
match, kept only if it lies in 1900..2024 (only the first match is ever
range-checked, as in the source). -/
def filterDate (title : String) : Option Nat :=
  match findYear none title.data with
  | some y => if 1900 ≤ y ∧ y ≤ 2024 then some y else none
  | none => none

/-- Does the (lowercase) word `w` match at the head of `cs` with `\b` on
both sides, case-insensitively?  `prev` is the character before the match
position. -/
def wordAt (w : List Char) (prev : Option Char) (cs : List Char) : Bool :=
  (match prev with | none => true | some p => !isWordChar p) &&
  ((cs.take w.length).map Char.toLower == w) &&
  (match (cs.drop w.length).head? with | none => true | some c => !isWordChar c)

/-- Computes `re.search(r'\bW\b', title, re.IGNORECASE) is not None`, scanned left
to right. -/
def hasWord (w : List Char) : Option Char → List Char → Bool
  | _, [] => false
  | prev, c :: rest => wordAt w prev (c :: rest) || hasWord w (some c) rest

/-- Embeds `filterType` (server.py lines 72-79): case-insensitive word-boundary
searches for Album/LP, then EP, then Single; otherwise `Unknown`. -/
def filterType (title : String) : String :=
  if hasWord "album".data none title.data || hasWord "lp".data none title.data then "Album"
  else if hasWord "ep".data none title.data then "EP"
  else if hasWord "single".data none title.data then "Single"
  else "Unknown"

/-- One element of the MusicBrainz `artist-credit` list: a credited name
and its join phrase (both already defaulted to `''` by `.get`, as in
`artistFormat`). -/
structure ArtistCredit where
  name : String
  joinphrase : String
deriving DecidableEq, Repr

/-- Embeds `artistFormat` (server.py lines 81-84): concatenates
`name + joinphrase` over the credit list; the source's early return for a
falsy (empty) list also yields `''`, which coincides with the join over
`[]`. -/
def artistFormat (data : List ArtistCredit) : String :=
  String.join (data.map fun credit => credit.name ++ credit.joinphrase)

/-- The fields of the best MusicBrainz match actually read by the
enrichment loop (server.py lines 157-166), after the `.get` defaulting the
source applies: `extScore` is `float(bestMatch.get('ext:score', 0))`
(carried as an integer, no float arithmetic occurs), `primaryType` is
`bestMatch.get('release-group', {}).get('primary-type', 'Unknown')`, and
the rest default to `''`. -/
structure MBMatch where
  extScore : Int
  title : String
  artistCredit : List ArtistCredit
  date : String
  primaryType : String
  mbid : String
deriving DecidableEq, Repr

/-- Outcome of `musicbrainzngs.search_releases` for one entry: the call
raises (`err`, swallowed by the loop's `except ... continue`), returns a
result with an empty/absent `release-list` (`noMatch`), or returns a best
match (`found`). -/
inductive LookupOutcome
  | err
  | noMatch
  | found (m : MBMatch)
deriving DecidableEq, Repr

/-- The in-place `item.update({...})` of the enrichment loop (server.py
lines 159-166): overwrite the six enrichment fields from the best match;
all other fields are untouched. -/
def applyMatch (item : Entry) (m : MBMatch) : Entry :=
  { item with
    score := m.extScore
    title := m.title
    artist := artistFormat m.artistCredit
    date := DateField.fromLookup m.date
    type := m.primaryType
    mbid := m.mbid }

/-- One playlist item as delivered by the YouTube collaborator: the fields
of `snippet`/`contentDetails` read by `playlistData` (server.py lines
197-212). -/
structure RawItem where
  position : Nat
  title : String
  videoId : String
  channelTitle : String
deriving DecidableEq, Repr

/-- The entry dict built by `playlistData` for one item (server.py lines
201-212): enrichment fields at their defaults, `date`/`type` derived from
the title, `ytname` the source title. -/
def mkEntry (r : RawItem) : Entry :=
  { position := r.position
    score := 0
    title := ""
    artist := ""
    date := match filterDate r.title with
            | some y => DateField.year y
            | none => DateField.noYear
    type := filterType r.title
    mbid := ""
    ytname := r.title
    ytlink := "https://www.youtube.com/watch?v=" ++ r.videoId
    channel := r.channelTitle }

/-- Embeds `playlistData` (server.py lines 183-222): the paginated fetch either
fails entirely (any exception → `None`) or yields the concatenated item
list in source order; the pagination mechanics are the collaborator's and
are abstracted into the already-concatenated `fetchOutcome`. -/
def playlistData (fetchOutcome : Option (List RawItem)) : Option (List Entry) :=
  fetchOutcome.map (List.map mkEntry)

/-- An identifier character of the playlist-URL pattern
`list=([a-zA-Z0-9_-]+)` (server.py line 61). -/
def isIdChar (c : Char) : Bool :=
  c.isAlpha || c.isDigit || c = '_' || c = '-'

/-- The literal part of the pattern. -/
def listEqToken : List Char := ['l', 'i', 's', 't', '=']

/-- Does `re.search(r'list=([a-zA-Z0-9_-]+)', url)` match at the head of
`cs`?  If so, the captured group is the maximal (greedy `+`) nonempty run
of identifier characters after the literal. -/
def matchHere (cs : List Char) : Option (List Char) :=
  if listEqToken.isPrefixOf cs then
    let grp := (cs.drop 5).takeWhile isIdChar
    if grp.isEmpty then none else some grp
  else none

/-- Leftmost-match scan of the whole URL, the semantics of `re.search`. -/
def findListId : List Char → Option (List Char)
  | [] => none
  | c :: rest =>
    match matchHere (c :: rest) with
    | some g => some g
    | none => findListId rest

/-- The `PlaylistError` exception (server.py lines 27-30): a message and
the HTTP status code it is surfaced with. -/
structure PlaylistError where
  message : String
  status_code : Nat
deriving DecidableEq, Repr

/-- Embeds `filterPlaylistId` (server.py lines 60-64): extract the identifier or
raise a 400 `PlaylistError`. -/
def filterPlaylistId (url : String) : Except PlaylistError String :=
  match findListId url.data with
  | some g => Except.ok (String.mk g)
  | none => Except.error ⟨"Invalid YouTube playlist URL", 400⟩

/-- The JSON responses `startProcess` can produce (server.py lines
245-266): the fire-and-run acknowledgment, the cached completed result
with the data inline, or an error body with its HTTP status. -/
inductive Resp
  | success (playlistId : String)
  | completedCached (playlistId : String) (data : List Entry)
  | failure (message : String) (status : Nat)
deriving DecidableEq, Repr

/-- Observable events of a request's execution, in program order: the
playlist fetch, one metadata lookup (with the entry index and query), the
persisted writes, a full teardown, and the HTTP response being produced.
Temporal claims are statements about the order of these events. -/
inductive Ev
  | fetch
  | lookup (idx : Nat) (query : String)
  | saveCat (cat : List Entry)
  | saveProg (cur tot : Nat) (status : String)
  | clearAll
  | attach
  | response (r : Resp)
deriving DecidableEq, Repr

/-- Computes `item['ytname'] not in ['Deleted video', 'Private video']` negated
(server.py line 149): the entry is a removed/private video and enrichment
is skipped. -/
def isUnavailable (name : String) : Bool :=
  name == "Deleted video" || name == "Private video"

/-- The `for idx, item in enumerate(catalog)` loop of `processPlaylist`
(server.py lines 143-174), as structural recursion over the remaining
entries.  `lookups` gives each entry's MusicBrainz outcome, `interf`
models mutations of the shared store by other tasks between iterations
(applied just before the loop re-reads the progress record), `total` is
`totalItems`, `idx` the current index and `catalog` the current full list
(the source mutates `item` in place, so `catalog[idx] = item` changes the
list only in the `found` case).  Returns the events emitted, the final
store, and the run's return value (`none` for the cancelled `return None`,
`some catalog` after the final completed write). -/
def processPlaylistLoop (lookups : Nat → LookupOutcome) (interf : Nat → Store → Store)
    (total : Nat) : Nat → List Entry → List Entry → Store →
    List Ev × Store × Option (List Entry)
  | _, [], catalog, s =>
    let s1 := saveProgress total total "completed" s
    ([Ev.saveProg total total "completed"], s1, some catalog)
  | idx, item :: rest, catalog, s =>
    let s0 := interf idx s
    match getProgress s0 with
    | none => ([], s0, none)
    | some p =>
      if p.activeConnections ≤ 0 then ([], s0, none)
      else if isUnavailable item.ytname then
        let s1 := saveCatalog catalog s0
        let s2 := saveProgress (idx + 1) total "processing" s1
        let rest' := processPlaylistLoop lookups interf total (idx + 1) rest catalog s2
        (Ev.saveCat catalog :: Ev.saveProg (idx + 1) total "processing" :: rest'.1,
         rest'.2)
      else
        match lookups idx with
        | LookupOutcome.err =>
          let rest' := processPlaylistLoop lookups interf total (idx + 1) rest catalog s0
          (Ev.lookup idx item.ytname :: rest'.1, rest'.2)
        | LookupOutcome.noMatch =>
          let s1 := saveCatalog catalog s0
          let s2 := saveProgress (idx + 1) total "processing" s1
          let rest' := processPlaylistLoop lookups interf total (idx + 1) rest catalog s2
          (Ev.lookup idx item.ytname :: Ev.saveCat catalog ::
             Ev.saveProg (idx + 1) total "processing" :: rest'.1,
           rest'.2)
        | LookupOutcome.found m =>
          let catalog' := catalog.set idx (applyMatch item m)
          let s1 := saveCatalog catalog' s0
          let s2 := saveProgress (idx + 1) total "processing" s1
          let rest' := processPlaylistLoop lookups interf total (idx + 1) rest catalog' s2
          (Ev.lookup idx item.ytname :: Ev.saveCat catalog' ::
             Ev.saveProg (idx + 1) total "processing" :: rest'.1,
           rest'.2)

/-- Embeds `processPlaylist` (server.py lines 134-181): fetch the playlist; on a
failed or empty fetch (`if not catalog`, which is also true for the empty
list) the raised error is caught by the outer handler, which tears down
all state and returns `None`; otherwise write the initial progress record
and run the per-entry loop. -/
def processPlaylist (fetchOutcome : Option (List RawItem))
    (lookups : Nat → LookupOutcome) (interf : Nat → Store → Store) (s : Store) :
    List Ev × Store × Option (List Entry) :=
  match playlistData fetchOutcome with
  | none => ([Ev.fetch, Ev.clearAll], clearProgress s, none)
  | some catalog =>
    if catalog.isEmpty then ([Ev.fetch, Ev.clearAll], clearProgress s, none)
    else
      let total := catalog.length
      let s1 := saveProgress 0 total "processing" s
      let run := processPlaylistLoop lookups interf total 0 catalog catalog s1
      (Ev.fetch :: Ev.saveProg 0 total "processing" :: run.1, run.2)

/-- The guard of the cached branch of `startProcess` (server.py line 245):
`existingCatalog and existingProgress and existingProgress['status'] ==
'completed'`.  Python truthiness of the snapshot list makes an *empty*
cached list falsy, so the branch also requires the snapshot to be
non-empty. -/
def cachedBranch (s : Store) : Bool :=
  match getCatalog s, getProgress s with
  | some c, some p => !c.isEmpty && (p.status == "completed")
  | _, _ => false

/-- Embeds `startProcess` (server.py lines 233-266), given an already-extracted
request body `url` (the `playlistUrl` value): extract the identifier (a
`PlaylistError` is caught and surfaced with its status code); if a
non-falsy completed cache exists, attach a viewer and respond with the
cached data; otherwise clear stale state, attach a viewer, run
`processPlaylist` — synchronously, on the request thread — and respond
`{success, playlistId}` afterwards.  Returns the event trace, the final
store and the response. -/
def startProcess (url : String) (fetchOutcome : Option (List RawItem))
    (lookups : Nat → LookupOutcome) (interf : Nat → Store → Store) (s : Store) :
    List Ev × Store × Resp :=
  match filterPlaylistId url with
  | Except.error e =>
    ([Ev.response (Resp.failure e.message e.status_code)], s,
     Resp.failure e.message e.status_code)
  | Except.ok playlistId =>
    if cachedBranch s then
      let s1 := (incrementConnections s).1
      let resp := Resp.completedCached playlistId ((getCatalog s).getD [])
      ([Ev.attach, Ev.response resp], s1, resp)
    else
      let s1 := clearProgress s
      let s2 := (incrementConnections s1).1
      let run := processPlaylist fetchOutcome lookups interf s2
      (Ev.clearAll :: Ev.attach :: run.1 ++ [Ev.response (Resp.success playlistId)],
       run.2.1, Resp.success playlistId)

/-! ## Concrete fixtures shared by witnesses and counterexamples -/

/-- No interference: no other task touches the store between iterations. -/
def quiescent : Nat → Store → Store := fun _ s => s

/-- A lookup oracle whose every call raises. -/
def lookupAllErr : Nat → LookupOutcome := fun _ => LookupOutcome.err

/-- A lookup oracle whose every call returns no usable match. -/
def lookupAllNone : Nat → LookupOutcome := fun _ => LookupOutcome.noMatch

/-- A concrete ordinary playlist item. -/
def rawSongA : RawItem := ⟨0, "Song A", "vidA", "ChanA"⟩

/-- A concrete removed/private playlist item. -/
def rawPrivate : RawItem := ⟨1, "Private video", "vidP", "ChanP"⟩

/-- Another concrete ordinary playlist item. -/
def rawSongC : RawItem := ⟨2, "Song C", "vidC", "ChanC"⟩

/-- A concrete MusicBrainz best match. -/
def matchA : MBMatch :=
  ⟨91, "Song A Deluxe", [⟨"Art", " feat. "⟩, ⟨"B", ""⟩], "1999-01-01", "Album", "mbid-0"⟩

/-- A store with exactly one attached viewer and nothing else. -/
def oneViewer : Store := { emptyStore with connections := some 1 }

/-! ## Trace projections -/

/-- The `(currentItem, status)` pairs of the Progress Records written, in
write order. -/
def progPairs (evs : List Ev) : List (Nat × String) :=
  evs.filterMap fun e =>
    match e with
    | Ev.saveProg c _ st => some (c, st)
    | _ => none

/-- Is this event the production of the HTTP response? -/
def isResponseEv : Ev → Bool
  | Ev.response _ => true
  | _ => false

/-- Is this event a snapshot write? -/
def isSaveCatEv : Ev → Bool
  | Ev.saveCat _ => true
  | _ => false

/-- Is this event the write of a `completed` Progress Record? -/
def isCompletedWrite : Ev → Bool
  | Ev.saveProg _ _ st => st == "completed"
  | _ => false

/-- No event of this trace is a snapshot write. -/
def noSnapshotWrites (evs : List Ev) : Bool :=
  evs.all fun e => !isSaveCatEv e

/-- A lookup oracle: a best match for entry 0, no usable match for the
others. -/
def lookupFound0 : Nat → LookupOutcome :=
  fun i => if i = 0 then LookupOutcome.found matchA else LookupOutcome.noMatch

/-- The first character of `post` (if any) is not an identifier
character: the greedy `+` of the pattern stops exactly there. -/
def headNotId (post : List Char) : Bool :=
  match post with
  | [] => true
  | c :: _ => !isIdChar c

/-! ## Store-level lemmas and claims C3, C4, C10 -/

/-- C3: For every playlist identifier whose Progress Record exists with
status not equal to `completed`, one attach followed by one detach (with no
other attach in between — the detaching viewer being the only one, so the
viewer-count key starts absent) leaves the Progress Record, the Catalog
snapshot and the Viewer Count all absent. -/
theorem claim3_abandonment_teardown (s : Store) (p : ProgressRecord)
    (hconn : s.connections = none) (hp : getProgress s = some p)
    (hst : p.status ≠ "completed") :
    getProgress (decrementConnections (incrementConnections s).1).1 = none ∧
    getCatalog (decrementConnections (incrementConnections s).1).1 = none ∧
    (decrementConnections (incrementConnections s).1).1.connections = none := by
  simp only [incrementConnections, decrementConnections, getProgress, getCatalog,
    clearProgress, hconn] at *
  simp only [Option.getD_some, Option.getD_none]
  norm_num
  simp only [getProgress, hp, hst]
  simp [hst]

/-- Witness for C3 at a concrete processing-state store. -/
theorem claim3_witness :
    getProgress (decrementConnections (incrementConnections
      ⟨some [], some ⟨"processing", 1, 3, 1⟩, none⟩).1).1 = none ∧
    getCatalog (decrementConnections (incrementConnections
      ⟨some [], some ⟨"processing", 1, 3, 1⟩, none⟩).1).1 = none ∧
    (decrementConnections (incrementConnections
      ⟨some [], some ⟨"processing", 1, 3, 1⟩, none⟩).1).1.connections = none :=
  claim3_abandonment_teardown _ _ rfl rfl (by decide)

/-- C4: on a `completed` run, one attach followed by one detach (the
detaching viewer being the only one) leaves the Progress Record and the
Catalog snapshot unchanged and present; only the Viewer Count key is
deleted. -/
theorem claim4_completed_survives_detach (s : Store) (p : ProgressRecord)
    (cat : List Entry) (hconn : s.connections = none)
    (hp : getProgress s = some p) (hst : p.status = "completed")
    (hc : getCatalog s = some cat) :
    getProgress (decrementConnections (incrementConnections s).1).1 = some p ∧
    getCatalog (decrementConnections (incrementConnections s).1).1 = some cat ∧
    (decrementConnections (incrementConnections s).1).1.connections = none := by
  simp only [incrementConnections, decrementConnections, getProgress, getCatalog,
    hconn] at *
  simp only [Option.getD_some, Option.getD_none]
  norm_num
  simp [getProgress, hp, hst, hc]

/-- Witness for C4 at a concrete completed-state store. -/
theorem claim4_witness :
    getProgress (decrementConnections (incrementConnections
      ⟨some [], some ⟨"completed", 3, 3, 0⟩, none⟩).1).1 = some ⟨"completed", 3, 3, 0⟩ ∧
    getCatalog (decrementConnections (incrementConnections
      ⟨some [], some ⟨"completed", 3, 3, 0⟩, none⟩).1).1 = some [] ∧
    (decrementConnections (incrementConnections
      ⟨some [], some ⟨"completed", 3, 3, 0⟩, none⟩).1).1.connections = none :=
  claim4_completed_survives_detach _ _ _ rfl rfl rfl rfl

/-- C10: attach and detach both preserve the invariant that the persisted
viewer-count key is absent or strictly positive; in particular a detach
with no prior attach (DECR of the absent key, yielding −1) deletes the key
rather than persisting a non-positive value. -/
theorem claim10_viewer_count_invariant (s : Store) (h : connInv s) :
    connInv (incrementConnections s).1 ∧ connInv (decrementConnections s).1 ∧
    (decrementConnections emptyStore).2 = -1 ∧
    (decrementConnections emptyStore).1.connections = none := by
  refine ⟨?_, ?_, by decide, by decide⟩
  · rcases h with h | ⟨n, hn, hpos⟩
    · exact Or.inr ⟨1, by simp [incrementConnections, h], by decide⟩
    · exact Or.inr ⟨n + 1, by simp [incrementConnections, hn], by linarith⟩
  · rcases h with h | ⟨n, hn, hpos⟩
    · simp only [decrementConnections, h, Option.getD_none]
      norm_num
      cases hp : getProgress { s with connections := none } with
      | none => simp [hp, connInv]
      | some p =>
        by_cases hst : p.status = "completed"
        · simp [hp, hst, connInv]
        · simp [hp, hst, connInv, clearProgress]
    · simp only [decrementConnections, hn, Option.getD_some]
      by_cases hle : n - 1 ≤ 0
      · simp only [if_pos hle]
        cases hp : s.progress with
        | none => simp [getProgress, hp, connInv]
        | some p =>
          by_cases hst : p.status = "completed"
          · simp [getProgress, hp, hst, connInv]
          · simp [getProgress, hp, hst, connInv, clearProgress]
      · simp only [if_neg hle]
        exact Or.inr ⟨n - 1, rfl, by omega⟩

/-- Witness for C10 at a concrete one-viewer store. -/
theorem claim10_witness :
    connInv (incrementConnections ⟨none, none, some 1⟩).1 ∧
    connInv (decrementConnections ⟨none, none, some 1⟩).1 ∧
    (decrementConnections emptyStore).2 = -1 ∧
    (decrementConnections emptyStore).1.connections = none :=
  claim10_viewer_count_invariant _ (Or.inr ⟨1, rfl, by decide⟩)

/-! ## Claim C5 (corrected) -/

/-- Counterexample to C5 as stated: a store in which a Catalog snapshot is
present (the empty list) together with a completed Progress Record, yet a
start-run request does not serve the cache — Python's truthiness test
`if existingCatalog and ...` (server.py line 245) treats the empty snapshot
as absent, so the handler clears state (`Ev.clearAll`) and re-invokes the
playlist-fetch collaborator (`Ev.fetch`). -/
theorem claim5_counterexample :
    getCatalog ⟨some [], some ⟨"completed", 0, 0, 0⟩, none⟩ = some [] ∧
    getProgress ⟨some [], some ⟨"completed", 0, 0, 0⟩, none⟩ =
      some ⟨"completed", 0, 0, 0⟩ ∧
    (startProcess "list=abc" none lookupAllErr quiescent
      ⟨some [], some ⟨"completed", 0, 0, 0⟩, none⟩).1.contains Ev.fetch = true ∧
    (startProcess "list=abc" none lookupAllErr quiescent
      ⟨some [], some ⟨"completed", 0, 0, 0⟩, none⟩).1.contains Ev.clearAll = true := by
  decide

/-- C5 as amended: for every identifier with a *non-empty* Catalog
snapshot and a completed Progress Record present, a start-run request
attaches a viewer and returns the cached snapshot inline, with no fetch,
no lookup and no clearing — the whole observable behaviour is the attach
event followed by the cached response, and the store changes only by the
increment. -/
theorem claim5_cached_idempotence (url pid : String) (f : Option (List RawItem))
    (lk : Nat → LookupOutcome) (intf : Nat → Store → Store) (s : Store)
    (cat : List Entry) (p : ProgressRecord)
    (hok : filterPlaylistId url = Except.ok pid)
    (hc : getCatalog s = some cat) (hne : cat ≠ [])
    (hp : getProgress s = some p) (hst : p.status = "completed") :
    startProcess url f lk intf s =
      ([Ev.attach, Ev.response (Resp.completedCached pid cat)],
       (incrementConnections s).1, Resp.completedCached pid cat) := by
  have hbr : cachedBranch s = true := by
    simp only [cachedBranch, hc, hp, hst]
    simp [List.isEmpty_iff, hne]
  simp only [startProcess, hok, hbr, if_pos, hc, Option.getD_some]

/-- Witness for C5 at a concrete completed one-entry cache. -/
theorem claim5_witness :
    startProcess "x?list=PL1" none lookupAllErr quiescent
      ⟨some [mkEntry rawSongA], some ⟨"completed", 1, 1, 0⟩, some 2⟩ =
      ([Ev.attach, Ev.response (Resp.completedCached "PL1" [mkEntry rawSongA])],
       (incrementConnections
         ⟨some [mkEntry rawSongA], some ⟨"completed", 1, 1, 0⟩, some 2⟩).1,
       Resp.completedCached "PL1" [mkEntry rawSongA]) :=
  claim5_cached_idempotence _ _ _ _ _ _ _ _ rfl rfl (by decide) rfl rfl

/-! ## Claim C7 -/

/-- C7: at the top of each iteration of the enrichment loop the Progress
Record is re-read (after any interference from other tasks); if it is
absent or its `activeConnections` is ≤ 0 the run returns immediately with
no further events — in particular no further Catalog or Progress writes —
leaving the store as the re-read saw it. -/
theorem claim7_cancellation_stops_run (lk : Nat → LookupOutcome)
    (intf : Nat → Store → Store) (total idx : Nat) (item : Entry)
    (rest catalog : List Entry) (s : Store)
    (h : getProgress (intf idx s) = none ∨
         ∃ p, getProgress (intf idx s) = some p ∧ p.activeConnections ≤ 0) :
    processPlaylistLoop lk intf total idx (item :: rest) catalog s =
      ([], intf idx s, none) := by
  rcases h with h | ⟨p, hp, hle⟩
  · simp only [processPlaylistLoop, h]
  · simp only [processPlaylistLoop, hp, if_pos hle]

/-- Witness for C7: a deleted Progress Record (e.g. after an abandonment
teardown) stops the run with no writes. -/
theorem claim7_witness :
    processPlaylistLoop lookupAllErr quiescent 1 0 [mkEntry rawSongA]
      [mkEntry rawSongA] emptyStore = ([], emptyStore, none) :=
  claim7_cancellation_stops_run _ _ _ _ _ _ _ _ (Or.inl rfl)

/-! ## Structural lemmas about the enrichment loop -/


/-- Unfolding: exhausting all entries writes the final completed record. -/
theorem loop_nil_eq (lk : Nat → LookupOutcome) (intf : Nat → Store → Store)
    (total idx : Nat) (catalog : List Entry) (s : Store) :
    processPlaylistLoop lk intf total idx [] catalog s =
      ([Ev.saveProg total total "completed"],
       saveProgress total total "completed" s, some catalog) := rfl

/-- Unfolding: an absent Progress Record at the top of an iteration stops
the run with no events. -/
theorem loop_cancel_none_eq (lk : Nat → LookupOutcome) (intf : Nat → Store → Store)
    (total idx : Nat) (item : Entry) (rest catalog : List Entry) (s : Store)
    (hp : getProgress (intf idx s) = none) :
    processPlaylistLoop lk intf total idx (item :: rest) catalog s =
      ([], intf idx s, none) := by
  simp only [processPlaylistLoop, hp]

/-- Unfolding: a re-read Progress Record with `activeConnections` ≤ 0
stops the run with no events. -/
theorem loop_cancel_conns_eq (lk : Nat → LookupOutcome) (intf : Nat → Store → Store)
    (total idx : Nat) (item : Entry) (rest catalog : List Entry) (s : Store)
    (p : ProgressRecord) (hp : getProgress (intf idx s) = some p)
    (hle : p.activeConnections ≤ 0) :
    processPlaylistLoop lk intf total idx (item :: rest) catalog s =
      ([], intf idx s, none) := by
  simp only [processPlaylistLoop, hp, if_pos hle]

/-- Unfolding: a removed/private entry is skipped without a lookup; the
unchanged snapshot and the advanced cursor are persisted. -/
theorem loop_skip_eq (lk : Nat → LookupOutcome) (intf : Nat → Store → Store)
    (total idx : Nat) (item : Entry) (rest catalog : List Entry) (s : Store)
    (p : ProgressRecord) (hp : getProgress (intf idx s) = some p)
    (hle : ¬ p.activeConnections ≤ 0) (hskip : isUnavailable item.ytname = true) :
    processPlaylistLoop lk intf total idx (item :: rest) catalog s =
      (Ev.saveCat catalog :: Ev.saveProg (idx + 1) total "processing" ::
         (processPlaylistLoop lk intf total (idx + 1) rest catalog
           (saveProgress (idx + 1) total "processing" (saveCatalog catalog (intf idx s)))).1,
       (processPlaylistLoop lk intf total (idx + 1) rest catalog
           (saveProgress (idx + 1) total "processing" (saveCatalog catalog (intf idx s)))).2) := by
  simp only [processPlaylistLoop, hp, if_neg hle, hskip, if_true]

/-- Unfolding: a raising lookup is swallowed by the `except ... continue`;
no snapshot or progress write happens for this entry. -/
theorem loop_err_eq (lk : Nat → LookupOutcome) (intf : Nat → Store → Store)
    (total idx : Nat) (item : Entry) (rest catalog : List Entry) (s : Store)
    (p : ProgressRecord) (hp : getProgress (intf idx s) = some p)
    (hle : ¬ p.activeConnections ≤ 0) (hskip : isUnavailable item.ytname = false)
    (hlk : lk idx = LookupOutcome.err) :
    processPlaylistLoop lk intf total idx (item :: rest) catalog s =
      (Ev.lookup idx item.ytname ::
         (processPlaylistLoop lk intf total (idx + 1) rest catalog (intf idx s)).1,
       (processPlaylistLoop lk intf total (idx + 1) rest catalog (intf idx s)).2) := by
  simp only [processPlaylistLoop, hp, if_neg hle, hskip, Bool.false_eq_true, if_false, hlk]

/-- Unfolding: a lookup with no usable match leaves the entry untouched
but still persists the snapshot and the advanced cursor. -/
theorem loop_noMatch_eq (lk : Nat → LookupOutcome) (intf : Nat → Store → Store)
    (total idx : Nat) (item : Entry) (rest catalog : List Entry) (s : Store)
    (p : ProgressRecord) (hp : getProgress (intf idx s) = some p)
    (hle : ¬ p.activeConnections ≤ 0) (hskip : isUnavailable item.ytname = false)
    (hlk : lk idx = LookupOutcome.noMatch) :
    processPlaylistLoop lk intf total idx (item :: rest) catalog s =
      (Ev.lookup idx item.ytname :: Ev.saveCat catalog ::
         Ev.saveProg (idx + 1) total "processing" ::
         (processPlaylistLoop lk intf total (idx + 1) rest catalog
           (saveProgress (idx + 1) total "processing" (saveCatalog catalog (intf idx s)))).1,
       (processPlaylistLoop lk intf total (idx + 1) rest catalog
           (saveProgress (idx + 1) total "processing" (saveCatalog catalog (intf idx s)))).2) := by
  simp only [processPlaylistLoop, hp, if_neg hle, hskip, Bool.false_eq_true, if_false, hlk]

/-- Unfolding: a usable best match enriches the entry in place and
persists the updated snapshot and the advanced cursor. -/
theorem loop_found_eq (lk : Nat → LookupOutcome) (intf : Nat → Store → Store)
    (total idx : Nat) (item : Entry) (rest catalog : List Entry) (s : Store)
    (p : ProgressRecord) (m : MBMatch) (hp : getProgress (intf idx s) = some p)
    (hle : ¬ p.activeConnections ≤ 0) (hskip : isUnavailable item.ytname = false)
    (hlk : lk idx = LookupOutcome.found m) :
    processPlaylistLoop lk intf total idx (item :: rest) catalog s =
      (Ev.lookup idx item.ytname :: Ev.saveCat (catalog.set idx (applyMatch item m)) ::
         Ev.saveProg (idx + 1) total "processing" ::
         (processPlaylistLoop lk intf total (idx + 1) rest (catalog.set idx (applyMatch item m))
           (saveProgress (idx + 1) total "processing"
             (saveCatalog (catalog.set idx (applyMatch item m)) (intf idx s)))).1,
       (processPlaylistLoop lk intf total (idx + 1) rest (catalog.set idx (applyMatch item m))
           (saveProgress (idx + 1) total "processing"
             (saveCatalog (catalog.set idx (applyMatch item m)) (intf idx s)))).2) := by
  simp only [processPlaylistLoop, hp, if_neg hle, hskip, Bool.false_eq_true, if_false, hlk]

/-- Computation rules for `progPairs`. -/
theorem progPairs_nil : progPairs [] = [] := rfl

theorem progPairs_cons_saveProg (c t : Nat) (st : String) (evs : List Ev) :
    progPairs (Ev.saveProg c t st :: evs) = (c, st) :: progPairs evs := rfl

theorem progPairs_cons_saveCat (cat : List Entry) (evs : List Ev) :
    progPairs (Ev.saveCat cat :: evs) = progPairs evs := rfl

theorem progPairs_cons_lookup (i : Nat) (q : String) (evs : List Ev) :
    progPairs (Ev.lookup i q :: evs) = progPairs evs := rfl

theorem progPairs_cons_fetch (evs : List Ev) :
    progPairs (Ev.fetch :: evs) = progPairs evs := rfl

theorem progPairs_cons_clearAll (evs : List Ev) :
    progPairs (Ev.clearAll :: evs) = progPairs evs := rfl

/-- Unfolding: a failed fetch aborts the run and tears all state down. -/
theorem processPlaylist_none_eq (lk : Nat → LookupOutcome) (intf : Nat → Store → Store)
    (s : Store) :
    processPlaylist none lk intf s = ([Ev.fetch, Ev.clearAll], clearProgress s, none) := rfl

/-- Unfolding: an empty fetched playlist is falsy (`if not catalog`), so
the run aborts and tears all state down, exactly like a failed fetch. -/
theorem processPlaylist_nil_eq (lk : Nat → LookupOutcome) (intf : Nat → Store → Store)
    (s : Store) :
    processPlaylist (some []) lk intf s = ([Ev.fetch, Ev.clearAll], clearProgress s, none) := rfl

/-- Unfolding: a non-empty fetched playlist starts the run: initial
progress write, then the per-entry loop over the fetched entries. -/
theorem processPlaylist_run_eq (raws : List RawItem) (lk : Nat → LookupOutcome)
    (intf : Nat → Store → Store) (s : Store) (hne : raws ≠ []) :
    processPlaylist (some raws) lk intf s =
      (Ev.fetch :: Ev.saveProg 0 raws.length "processing" ::
         (processPlaylistLoop lk intf raws.length 0 (raws.map mkEntry) (raws.map mkEntry)
           (saveProgress 0 raws.length "processing" s)).1,
       (processPlaylistLoop lk intf raws.length 0 (raws.map mkEntry) (raws.map mkEntry)
           (saveProgress 0 raws.length "processing" s)).2) := by
  have hmap : (raws.map mkEntry).isEmpty = false := by
    cases raws with
    | nil => exact absurd rfl hne
    | cons a l => rfl
  simp only [processPlaylist, playlistData, Option.map_some', hmap, Bool.false_eq_true,
    if_false, List.length_map]

/-- Every Progress Record the loop writes from index `idx` on has cursor
between `idx` and `total` (given the loop invariant `idx + |rest| = total`),
and `processing` records have cursor at least `idx + 1`. -/
theorem loop_progPairs_facts (lk : Nat → LookupOutcome) (intf : Nat → Store → Store)
    (total : Nat) :
    ∀ (rest : List Entry) (idx : Nat) (catalog : List Entry) (s : Store),
      idx + rest.length = total →
      ∀ x ∈ progPairs (processPlaylistLoop lk intf total idx rest catalog s).1,
        idx ≤ x.1 ∧ x.1 ≤ total ∧ (x.2 = "processing" → idx + 1 ≤ x.1) := by
  intro rest
  induction rest with
  | nil =>
    intro idx catalog s htot x hx
    rw [loop_nil_eq] at hx
    dsimp only at hx
    rw [progPairs_cons_saveProg, progPairs_nil] at hx
    rcases List.mem_cons.mp hx with hx | hx
    · subst hx
      simp only [List.length_nil, Nat.add_zero] at htot
      refine ⟨show idx ≤ total by omega, show total ≤ total from le_refl _, fun h => ?_⟩
      have h' : ("completed" : String) = "processing" := h
      exact absurd h' (by decide)
    · exact absurd hx (List.not_mem_nil x)
  | cons item rest ih =>
    intro idx catalog s htot x hx
    simp only [List.length_cons] at htot
    have htot' : (idx + 1) + rest.length = total := by omega
    cases hp : getProgress (intf idx s) with
    | none =>
      rw [loop_cancel_none_eq _ _ _ _ _ _ _ _ hp] at hx
      dsimp only at hx
      rw [progPairs_nil] at hx
      exact absurd hx (List.not_mem_nil x)
    | some p =>
      by_cases hle : p.activeConnections ≤ 0
      · rw [loop_cancel_conns_eq _ _ _ _ _ _ _ _ _ hp hle] at hx
        dsimp only at hx
        rw [progPairs_nil] at hx
        exact absurd hx (List.not_mem_nil x)
      · cases hskip : isUnavailable item.ytname with
        | true =>
          rw [loop_skip_eq _ _ _ _ _ _ _ _ _ hp hle hskip] at hx
          dsimp only at hx
          rw [progPairs_cons_saveCat, progPairs_cons_saveProg] at hx
          rcases List.mem_cons.mp hx with hx | hx
          · subst hx
            exact ⟨Nat.le_succ idx, show idx + 1 ≤ total by omega,
              fun _ => le_refl _⟩
          · obtain ⟨h1, h2, h3⟩ := ih (idx + 1) catalog _ htot' x hx
            exact ⟨by omega, h2, fun h => by have := h3 h; omega⟩
        | false =>
          cases hlk : lk idx with
          | err =>
            rw [loop_err_eq _ _ _ _ _ _ _ _ _ hp hle hskip hlk] at hx
            dsimp only at hx
            rw [progPairs_cons_lookup] at hx
            obtain ⟨h1, h2, h3⟩ := ih (idx + 1) catalog _ htot' x hx
            exact ⟨by omega, h2, fun h => by have := h3 h; omega⟩
          | noMatch =>
            rw [loop_noMatch_eq _ _ _ _ _ _ _ _ _ hp hle hskip hlk] at hx
            dsimp only at hx
            rw [progPairs_cons_lookup, progPairs_cons_saveCat, progPairs_cons_saveProg] at hx
            rcases List.mem_cons.mp hx with hx | hx
            · subst hx
              exact ⟨Nat.le_succ idx, show idx + 1 ≤ total by omega,
                fun _ => le_refl _⟩
            · obtain ⟨h1, h2, h3⟩ := ih (idx + 1) catalog _ htot' x hx
              exact ⟨by omega, h2, fun h => by have := h3 h; omega⟩
          | found m =>
            rw [loop_found_eq _ _ _ _ _ _ _ _ _ _ hp hle hskip hlk] at hx
            dsimp only at hx
            rw [progPairs_cons_lookup, progPairs_cons_saveCat, progPairs_cons_saveProg] at hx
            rcases List.mem_cons.mp hx with hx | hx
            · subst hx
              exact ⟨Nat.le_succ idx, show idx + 1 ≤ total by omega,
                fun _ => le_refl _⟩
            · obtain ⟨h1, h2, h3⟩ :=
                ih (idx + 1) (catalog.set idx (applyMatch item m)) _ htot' x hx
              exact ⟨by omega, h2, fun h => by have := h3 h; omega⟩

/-- The cursors of the Progress Records written by the loop are
non-decreasing in write order. -/
theorem loop_progPairs_chain (lk : Nat → LookupOutcome) (intf : Nat → Store → Store)
    (total : Nat) :
    ∀ (rest : List Entry) (idx : Nat) (catalog : List Entry) (s : Store),
      idx + rest.length = total →
      List.Chain' (fun a b : Nat × String => a.1 ≤ b.1)
        (progPairs (processPlaylistLoop lk intf total idx rest catalog s).1) := by
  intro rest
  induction rest with
  | nil =>
    intro idx catalog s htot
    rw [loop_nil_eq]
    dsimp only
    rw [progPairs_cons_saveProg, progPairs_nil]
    exact List.chain'_singleton _
  | cons item rest ih =>
    intro idx catalog s htot
    simp only [List.length_cons] at htot
    have htot' : (idx + 1) + rest.length = total := by omega
    cases hp : getProgress (intf idx s) with
    | none =>
      rw [loop_cancel_none_eq _ _ _ _ _ _ _ _ hp]
      dsimp only
      rw [progPairs_nil]
      exact List.chain'_nil
    | some p =>
      by_cases hle : p.activeConnections ≤ 0
      · rw [loop_cancel_conns_eq _ _ _ _ _ _ _ _ _ hp hle]
        dsimp only
        rw [progPairs_nil]
        exact List.chain'_nil
      · cases hskip : isUnavailable item.ytname with
        | true =>
          rw [loop_skip_eq _ _ _ _ _ _ _ _ _ hp hle hskip]
          dsimp only
          rw [progPairs_cons_saveCat, progPairs_cons_saveProg]
          refine List.chain'_cons'.mpr ⟨fun b hb => ?_, ih (idx + 1) catalog _ htot'⟩
          exact (loop_progPairs_facts lk intf total rest (idx + 1) catalog _ htot' b
            (List.mem_of_mem_head? hb)).1
        | false =>
          cases hlk : lk idx with
          | err =>
            rw [loop_err_eq _ _ _ _ _ _ _ _ _ hp hle hskip hlk]
            dsimp only
            rw [progPairs_cons_lookup]
            exact ih (idx + 1) catalog _ htot'
          | noMatch =>
            rw [loop_noMatch_eq _ _ _ _ _ _ _ _ _ hp hle hskip hlk]
            dsimp only
            rw [progPairs_cons_lookup, progPairs_cons_saveCat, progPairs_cons_saveProg]
            refine List.chain'_cons'.mpr ⟨fun b hb => ?_, ih (idx + 1) catalog _ htot'⟩
            exact (loop_progPairs_facts lk intf total rest (idx + 1) catalog _ htot' b
              (List.mem_of_mem_head? hb)).1
          | found m =>
            rw [loop_found_eq _ _ _ _ _ _ _ _ _ _ hp hle hskip hlk]
            dsimp only
            rw [progPairs_cons_lookup, progPairs_cons_saveCat, progPairs_cons_saveProg]
            refine List.chain'_cons'.mpr
              ⟨fun b hb => ?_, ih (idx + 1) (catalog.set idx (applyMatch item m)) _ htot'⟩
            exact (loop_progPairs_facts lk intf total rest (idx + 1)
              (catalog.set idx (applyMatch item m)) _ htot' b (List.mem_of_mem_head? hb)).1

/-- A `completed` Progress Record written by the loop is always the last
one written: nothing follows it. -/
theorem loop_completed_last (lk : Nat → LookupOutcome) (intf : Nat → Store → Store)
    (total : Nat) :
    ∀ (rest : List Entry) (idx : Nat) (catalog : List Entry) (s : Store)
      (l₁ : List (Nat × String)) (x : Nat × String) (l₂ : List (Nat × String)),
      progPairs (processPlaylistLoop lk intf total idx rest catalog s).1 = l₁ ++ x :: l₂ →
      x.2 = "completed" → l₂ = [] := by
  intro rest
  induction rest with
  | nil =>
    intro idx catalog s l₁ x l₂ heq _
    rw [loop_nil_eq] at heq
    dsimp only at heq
    rw [progPairs_cons_saveProg, progPairs_nil] at heq
    cases l₁ with
    | nil =>
      rw [List.nil_append] at heq
      exact (List.cons_eq_cons.mp heq).2.symm
    | cons y l₁ =>
      rw [List.cons_append] at heq
      have := (List.cons_eq_cons.mp heq).2
      exact absurd this.symm (List.append_ne_nil_of_right_ne_nil l₁ (List.cons_ne_nil x l₂))
  | cons item rest ih =>
    intro idx catalog s l₁ x l₂ heq hcomp
    cases hp : getProgress (intf idx s) with
    | none =>
      rw [loop_cancel_none_eq _ _ _ _ _ _ _ _ hp] at heq
      dsimp only at heq
      rw [progPairs_nil] at heq
      exact absurd heq.symm (List.append_ne_nil_of_right_ne_nil l₁ (List.cons_ne_nil x l₂))
    | some p =>
      by_cases hle : p.activeConnections ≤ 0
      · rw [loop_cancel_conns_eq _ _ _ _ _ _ _ _ _ hp hle] at heq
        dsimp only at heq
        rw [progPairs_nil] at heq
        exact absurd heq.symm (List.append_ne_nil_of_right_ne_nil l₁ (List.cons_ne_nil x l₂))
      · cases hskip : isUnavailable item.ytname with
        | true =>
          rw [loop_skip_eq _ _ _ _ _ _ _ _ _ hp hle hskip] at heq
          dsimp only at heq
          rw [progPairs_cons_saveCat, progPairs_cons_saveProg] at heq
          cases l₁ with
          | nil =>
            rw [List.nil_append] at heq
            have hx := (List.cons_eq_cons.mp heq).1
            subst hx
            have h' : ("processing" : String) = "completed" := hcomp
            exact absurd h' (by decide)
          | cons y l₁ =>
            rw [List.cons_append] at heq
            exact ih (idx + 1) catalog _ l₁ x l₂ (List.cons_eq_cons.mp heq).2 hcomp
        | false =>
          cases hlk : lk idx with
          | err =>
            rw [loop_err_eq _ _ _ _ _ _ _ _ _ hp hle hskip hlk] at heq
            dsimp only at heq
            rw [progPairs_cons_lookup] at heq
            exact ih (idx + 1) catalog _ l₁ x l₂ heq hcomp
          | noMatch =>
            rw [loop_noMatch_eq _ _ _ _ _ _ _ _ _ hp hle hskip hlk] at heq
            dsimp only at heq
            rw [progPairs_cons_lookup, progPairs_cons_saveCat, progPairs_cons_saveProg] at heq
            cases l₁ with
            | nil =>
              rw [List.nil_append] at heq
              have hx := (List.cons_eq_cons.mp heq).1
              subst hx
              have h' : ("processing" : String) = "completed" := hcomp
              exact absurd h' (by decide)
            | cons y l₁ =>
              rw [List.cons_append] at heq
              exact ih (idx + 1) catalog _ l₁ x l₂ (List.cons_eq_cons.mp heq).2 hcomp
          | found m =>
            rw [loop_found_eq _ _ _ _ _ _ _ _ _ _ hp hle hskip hlk] at heq
            dsimp only at heq
            rw [progPairs_cons_lookup, progPairs_cons_saveCat, progPairs_cons_saveProg] at heq
            cases l₁ with
            | nil =>
              rw [List.nil_append] at heq
              have hx := (List.cons_eq_cons.mp heq).1
              subst hx
              have h' : ("processing" : String) = "completed" := hcomp
              exact absurd h' (by decide)
            | cons y l₁ =>
              rw [List.cons_append] at heq
              exact ih (idx + 1) (catalog.set idx (applyMatch item m)) _ l₁ x l₂
                (List.cons_eq_cons.mp heq).2 hcomp

/-! ## Claim C6 -/

/-- C6: across one enrichment run, the Progress Records written for the
identifier have monotonically non-decreasing `currentItem` (in write
order), and a `completed` record is never followed by any further record —
in particular no `processing` record follows it.  Holds for every fetch
outcome, lookup oracle and interference. -/
theorem claim6_progress_monotone (f : Option (List RawItem)) (lk : Nat → LookupOutcome)
    (intf : Nat → Store → Store) (s : Store) :
    List.Chain' (fun a b : Nat × String => a.1 ≤ b.1)
      (progPairs (processPlaylist f lk intf s).1) ∧
    (∀ (l₁ : List (Nat × String)) (x : Nat × String) (l₂ : List (Nat × String)),
       progPairs (processPlaylist f lk intf s).1 = l₁ ++ x :: l₂ →
       x.2 = "completed" → l₂ = []) := by
  cases f with
  | none =>
    rw [processPlaylist_none_eq]
    dsimp only
    rw [progPairs_cons_fetch, progPairs_cons_clearAll, progPairs_nil]
    exact ⟨List.chain'_nil, fun l₁ x l₂ heq _ =>
      absurd heq.symm (List.append_ne_nil_of_right_ne_nil l₁ (List.cons_ne_nil x l₂))⟩
  | some raws =>
    cases raws with
    | nil =>
      rw [processPlaylist_nil_eq]
      dsimp only
      rw [progPairs_cons_fetch, progPairs_cons_clearAll, progPairs_nil]
      exact ⟨List.chain'_nil, fun l₁ x l₂ heq _ =>
        absurd heq.symm (List.append_ne_nil_of_right_ne_nil l₁ (List.cons_ne_nil x l₂))⟩
    | cons r rs =>
      have hne : (r :: rs) ≠ [] := List.cons_ne_nil r rs
      rw [processPlaylist_run_eq _ _ _ _ hne]
      dsimp only
      rw [progPairs_cons_fetch, progPairs_cons_saveProg]
      have htot : 0 + ((r :: rs).map mkEntry).length = (r :: rs).length := by
        simp
      constructor
      · refine List.chain'_cons'.mpr ⟨fun b _ => Nat.zero_le _, ?_⟩
        exact loop_progPairs_chain lk intf _ _ 0 _ _ htot
      · intro l₁ x l₂ heq hcomp
        cases l₁ with
        | nil =>
          rw [List.nil_append] at heq
          have hx := (List.cons_eq_cons.mp heq).1
          subst hx
          have h' : ("processing" : String) = "completed" := hcomp
          exact absurd h' (by decide)
        | cons y l₁ =>
          rw [List.cons_append] at heq
          exact loop_completed_last lk intf _ _ 0 _ _ l₁ x l₂
            (List.cons_eq_cons.mp heq).2 hcomp

/-- Witness for C6 at a concrete two-entry run (one raising lookup, one
skipped private video). -/
theorem claim6_witness :
    List.Chain' (fun a b : Nat × String => a.1 ≤ b.1)
      (progPairs (processPlaylist (some [rawSongA, rawPrivate])
        lookupAllErr quiescent oneViewer).1) ∧
    (∀ (l₁ : List (Nat × String)) (x : Nat × String) (l₂ : List (Nat × String)),
       progPairs (processPlaylist (some [rawSongA, rawPrivate])
         lookupAllErr quiescent oneViewer).1 = l₁ ++ x :: l₂ →
       x.2 = "completed" → l₂ = []) :=
  claim6_progress_monotone _ _ _ _

/-- The enrichment loop never produces a response event: responses are
produced only by HTTP handlers. -/
theorem loop_no_response (lk : Nat → LookupOutcome) (intf : Nat → Store → Store)
    (total : Nat) :
    ∀ (rest : List Entry) (idx : Nat) (catalog : List Entry) (s : Store) (r : Resp),
      Ev.response r ∉ (processPlaylistLoop lk intf total idx rest catalog s).1 := by
  intro rest
  induction rest with
  | nil =>
    intro idx catalog s r hmem
    rw [loop_nil_eq] at hmem
    dsimp only at hmem
    rcases List.mem_cons.mp hmem with h | h
    · exact Ev.noConfusion h
    · exact absurd h (List.not_mem_nil _)
  | cons item rest ih =>
    intro idx catalog s r hmem
    cases hp : getProgress (intf idx s) with
    | none =>
      rw [loop_cancel_none_eq _ _ _ _ _ _ _ _ hp] at hmem
      exact absurd hmem (List.not_mem_nil _)
    | some p =>
      by_cases hle : p.activeConnections ≤ 0
      · rw [loop_cancel_conns_eq _ _ _ _ _ _ _ _ _ hp hle] at hmem
        exact absurd hmem (List.not_mem_nil _)
      · cases hskip : isUnavailable item.ytname with
        | true =>
          rw [loop_skip_eq _ _ _ _ _ _ _ _ _ hp hle hskip] at hmem
          dsimp only at hmem
          rcases List.mem_cons.mp hmem with h | h
          · exact Ev.noConfusion h
          rcases List.mem_cons.mp h with h | h
          · exact Ev.noConfusion h
          · exact ih (idx + 1) catalog _ r h
        | false =>
          cases hlk : lk idx with
          | err =>
            rw [loop_err_eq _ _ _ _ _ _ _ _ _ hp hle hskip hlk] at hmem
            dsimp only at hmem
            rcases List.mem_cons.mp hmem with h | h
            · exact Ev.noConfusion h
            · exact ih (idx + 1) catalog _ r h
          | noMatch =>
            rw [loop_noMatch_eq _ _ _ _ _ _ _ _ _ hp hle hskip hlk] at hmem
            dsimp only at hmem
            rcases List.mem_cons.mp hmem with h | h
            · exact Ev.noConfusion h
            rcases List.mem_cons.mp h with h | h
            · exact Ev.noConfusion h
            rcases List.mem_cons.mp h with h | h
            · exact Ev.noConfusion h
            · exact ih (idx + 1) catalog _ r h
          | found m =>
            rw [loop_found_eq _ _ _ _ _ _ _ _ _ _ hp hle hskip hlk] at hmem
            dsimp only at hmem
            rcases List.mem_cons.mp hmem with h | h
            · exact Ev.noConfusion h
            rcases List.mem_cons.mp h with h | h
            · exact Ev.noConfusion h
            rcases List.mem_cons.mp h with h | h
            · exact Ev.noConfusion h
            · exact ih (idx + 1) (catalog.set idx (applyMatch item m)) _ r h

/-- The whole enrichment run never produces a response event. -/
theorem run_no_response (f : Option (List RawItem)) (lk : Nat → LookupOutcome)
    (intf : Nat → Store → Store) (s : Store) (r : Resp) :
    Ev.response r ∉ (processPlaylist f lk intf s).1 := by
  cases f with
  | none =>
    rw [processPlaylist_none_eq]
    intro hmem
    rcases List.mem_cons.mp hmem with h | h
    · exact Ev.noConfusion h
    rcases List.mem_cons.mp h with h | h
    · exact Ev.noConfusion h
    · exact absurd h (List.not_mem_nil _)
  | some raws =>
    cases raws with
    | nil =>
      rw [processPlaylist_nil_eq]
      intro hmem
      rcases List.mem_cons.mp hmem with h | h
      · exact Ev.noConfusion h
      rcases List.mem_cons.mp h with h | h
      · exact Ev.noConfusion h
      · exact absurd h (List.not_mem_nil _)
    | cons a l =>
      rw [processPlaylist_run_eq _ _ _ _ (List.cons_ne_nil a l)]
      intro hmem
      dsimp only at hmem
      rcases List.mem_cons.mp hmem with h | h
      · exact Ev.noConfusion h
      rcases List.mem_cons.mp h with h | h
      · exact Ev.noConfusion h
      · exact loop_no_response _ _ _ _ 0 _ _ r h

/-- Unfolding: the non-cached branch of the start-run handler — teardown,
attach, the (synchronous) run, then the response. -/
theorem startProcess_run_eq (url pid : String) (f : Option (List RawItem))
    (lk : Nat → LookupOutcome) (intf : Nat → Store → Store) (s : Store)
    (hok : filterPlaylistId url = Except.ok pid) (hnc : cachedBranch s = false) :
    startProcess url f lk intf s =
      (Ev.clearAll :: Ev.attach ::
         (processPlaylist f lk intf (incrementConnections (clearProgress s)).1).1 ++
         [Ev.response (Resp.success pid)],
       (processPlaylist f lk intf (incrementConnections (clearProgress s)).1).2.1,
       Resp.success pid) := by
  simp only [startProcess, hok, hnc, Bool.false_eq_true, if_false]

/-! ## Claim C1 (corrected) -/

/-- Counterexample to C1 as stated: a concrete fresh start-run request on
a one-entry playlist.  The trace has 8 events; the first (and only)
response event sits at index 7, *after* the completed-progress write at
index 6 — the handler runs `processPlaylist` synchronously on the request
thread (server.py line 256) and only then builds the response, so the
response is not produced before the run reaches its completed state. -/
theorem claim1_counterexample :
    (startProcess "list=abc" (some [rawPrivate]) lookupAllErr quiescent
      emptyStore).1.findIdx? isCompletedWrite = some 6 ∧
    (startProcess "list=abc" (some [rawPrivate]) lookupAllErr quiescent
      emptyStore).1.findIdx? isResponseEv = some 7 ∧
    (startProcess "list=abc" (some [rawPrivate]) lookupAllErr quiescent
      emptyStore).1.length = 8 := by
  decide

/-- C1 as amended: for a start-run request whose identifier has no
(non-empty) completed cached result, the handler clears stale state,
attaches a viewer, runs the enrichment synchronously, and produces the
`{success, playlistId}` response only *after* the run has ended: the
response is the unique response event of the trace and is its last event —
in particular the run's completed-progress write, when present, precedes
it. -/
theorem claim1_response_follows_run (url pid : String) (f : Option (List RawItem))
    (lk : Nat → LookupOutcome) (intf : Nat → Store → Store) (s : Store)
    (hok : filterPlaylistId url = Except.ok pid) (hnc : cachedBranch s = false) :
    (startProcess url f lk intf s).2.2 = Resp.success pid ∧
    (startProcess url f lk intf s).1.getLast? = some (Ev.response (Resp.success pid)) ∧
    (startProcess url f lk intf s).1.countP isResponseEv = 1 ∧
    Ev.clearAll ∈ (startProcess url f lk intf s).1 ∧
    Ev.attach ∈ (startProcess url f lk intf s).1 := by
  rw [startProcess_run_eq url pid f lk intf s hok hnc]
  dsimp only
  refine ⟨rfl, ?_, ?_, ?_, ?_⟩
  · rw [show Ev.clearAll :: Ev.attach ::
        (processPlaylist f lk intf (incrementConnections (clearProgress s)).1).1 ++
        [Ev.response (Resp.success pid)] =
        (Ev.clearAll :: Ev.attach ::
          (processPlaylist f lk intf (incrementConnections (clearProgress s)).1).1) ++
        [Ev.response (Resp.success pid)] from by simp]
    exact List.getLast?_concat _
  · rw [show Ev.clearAll :: Ev.attach ::
        (processPlaylist f lk intf (incrementConnections (clearProgress s)).1).1 ++
        [Ev.response (Resp.success pid)] =
        (Ev.clearAll :: Ev.attach ::
          (processPlaylist f lk intf (incrementConnections (clearProgress s)).1).1) ++
        [Ev.response (Resp.success pid)] from by simp]
    rw [List.countP_append, List.countP_cons, List.countP_cons]
    rw [List.countP_eq_zero.mpr
      (fun e he hre => by
        cases e <;> try exact Bool.noConfusion hre
        exact run_no_response f lk intf _ _ he)]
    rfl
  · exact List.mem_cons_self _ _
  · exact List.mem_cons_of_mem _ (List.mem_cons_self _ _)

/-- Witness for C1 (amended) at a concrete fresh one-entry request. -/
theorem claim1_witness :
    (startProcess "list=abc" (some [rawPrivate]) lookupAllErr quiescent
      emptyStore).2.2 = Resp.success "abc" ∧
    (startProcess "list=abc" (some [rawPrivate]) lookupAllErr quiescent
      emptyStore).1.getLast? = some (Ev.response (Resp.success "abc")) ∧
    (startProcess "list=abc" (some [rawPrivate]) lookupAllErr quiescent
      emptyStore).1.countP isResponseEv = 1 ∧
    Ev.clearAll ∈ (startProcess "list=abc" (some [rawPrivate]) lookupAllErr quiescent
      emptyStore).1 ∧
    Ev.attach ∈ (startProcess "list=abc" (some [rawPrivate]) lookupAllErr quiescent
      emptyStore).1 :=
  claim1_response_follows_run _ _ _ _ _ _ rfl rfl

/-- In a loop execution that returns a catalog (i.e. was never cancelled),
every entry that is skipped as removed/private, or whose lookup does not
raise, is followed by its persist step: a snapshot write immediately
followed by the Progress write with the advanced cursor. -/
theorem loop_good_persist (lk : Nat → LookupOutcome) (intf : Nat → Store → Store)
    (total : Nat) :
    ∀ (rest : List Entry) (idx : Nat) (catalog : List Entry) (s : Store),
      (processPlaylistLoop lk intf total idx rest catalog s).2.2 ≠ none →
      ∀ (j : Nat) (hj : j < rest.length),
        (isUnavailable ((rest.get ⟨j, hj⟩).ytname) = true ∨
          lk (idx + j) ≠ LookupOutcome.err) →
        ∃ pre c post,
          (processPlaylistLoop lk intf total idx rest catalog s).1 =
            pre ++ Ev.saveCat c ::
              Ev.saveProg (idx + j + 1) total "processing" :: post := by
  intro rest
  induction rest with
  | nil =>
    intro idx catalog s _ j hj
    exact absurd hj (by simp)
  | cons item rest ih =>
    intro idx catalog s hres j hj hgood
    cases hp : getProgress (intf idx s) with
    | none =>
      rw [loop_cancel_none_eq _ _ _ _ _ _ _ _ hp] at hres
      dsimp only at hres
      exact absurd rfl hres
    | some p =>
      by_cases hle : p.activeConnections ≤ 0
      · rw [loop_cancel_conns_eq _ _ _ _ _ _ _ _ _ hp hle] at hres
        dsimp only at hres
        exact absurd rfl hres
      · cases hskip : isUnavailable item.ytname with
        | true =>
          rw [loop_skip_eq _ _ _ _ _ _ _ _ _ hp hle hskip] at hres ⊢
          dsimp only at hres ⊢
          cases j with
          | zero =>
            refine ⟨[], catalog,
              (processPlaylistLoop lk intf total (idx + 1) rest catalog
                (saveProgress (idx + 1) total "processing"
                  (saveCatalog catalog (intf idx s)))).1, ?_⟩
            simp
          | succ j' =>
            have hj' : j' < rest.length := by
              simpa using Nat.lt_of_succ_lt_succ hj
            have hgood' : isUnavailable ((rest.get ⟨j', hj'⟩).ytname) = true ∨
                lk ((idx + 1) + j') ≠ LookupOutcome.err := by
              rcases hgood with h | h
              · left
                simpa using h
              · right
                have harith : idx + 1 + j' = idx + (j' + 1) := by omega
                rw [harith]
                exact h
            obtain ⟨pre, c, post, hdec⟩ := ih (idx + 1) catalog _ hres j' hj' hgood'
            refine ⟨Ev.saveCat catalog :: Ev.saveProg (idx + 1) total "processing" :: pre,
              c, post, ?_⟩
            have harith : idx + 1 + j' + 1 = idx + (j' + 1) + 1 := by omega
            rw [harith] at hdec
            simp [hdec]
        | false =>
          cases hlk : lk idx with
          | err =>
            cases j with
            | zero =>
              exfalso
              rcases hgood with h | h
              · have h0 : isUnavailable item.ytname = true := by simpa using h
                rw [hskip] at h0
                exact Bool.noConfusion h0
              · have h0 : lk idx = LookupOutcome.err := by
                  simpa using hlk
                exact h (by simpa using h0)
            | succ j' =>
              rw [loop_err_eq _ _ _ _ _ _ _ _ _ hp hle hskip hlk] at hres ⊢
              dsimp only at hres ⊢
              have hj' : j' < rest.length := by
                simpa using Nat.lt_of_succ_lt_succ hj
              have hgood' : isUnavailable ((rest.get ⟨j', hj'⟩).ytname) = true ∨
                  lk ((idx + 1) + j') ≠ LookupOutcome.err := by
                rcases hgood with h | h
                · left
                  simpa using h
                · right
                  have harith : idx + 1 + j' = idx + (j' + 1) := by omega
                  rw [harith]
                  exact h
              obtain ⟨pre, c, post, hdec⟩ := ih (idx + 1) catalog _ hres j' hj' hgood'
              refine ⟨Ev.lookup idx item.ytname :: pre, c, post, ?_⟩
              have harith : idx + 1 + j' + 1 = idx + (j' + 1) + 1 := by omega
              rw [harith] at hdec
              simp [hdec]
          | noMatch =>
            rw [loop_noMatch_eq _ _ _ _ _ _ _ _ _ hp hle hskip hlk] at hres ⊢
            dsimp only at hres ⊢
            cases j with
            | zero =>
              refine ⟨[Ev.lookup idx item.ytname], catalog,
                (processPlaylistLoop lk intf total (idx + 1) rest catalog
                  (saveProgress (idx + 1) total "processing"
                    (saveCatalog catalog (intf idx s)))).1, ?_⟩
              simp
            | succ j' =>
              have hj' : j' < rest.length := by
                simpa using Nat.lt_of_succ_lt_succ hj
              have hgood' : isUnavailable ((rest.get ⟨j', hj'⟩).ytname) = true ∨
                  lk ((idx + 1) + j') ≠ LookupOutcome.err := by
                rcases hgood with h | h
                · left
                  simpa using h
                · right
                  have harith : idx + 1 + j' = idx + (j' + 1) := by omega
                  rw [harith]
                  exact h
              obtain ⟨pre, c, post, hdec⟩ := ih (idx + 1) catalog _ hres j' hj' hgood'
              refine ⟨Ev.lookup idx item.ytname :: Ev.saveCat catalog ::
                Ev.saveProg (idx + 1) total "processing" :: pre, c, post, ?_⟩
              have harith : idx + 1 + j' + 1 = idx + (j' + 1) + 1 := by omega
              rw [harith] at hdec
              simp [hdec]
          | found m =>
            rw [loop_found_eq _ _ _ _ _ _ _ _ _ _ hp hle hskip hlk] at hres ⊢
            dsimp only at hres ⊢
            cases j with
            | zero =>
              refine ⟨[Ev.lookup idx item.ytname], catalog.set idx (applyMatch item m),
                (processPlaylistLoop lk intf total (idx + 1) rest
                  (catalog.set idx (applyMatch item m))
                  (saveProgress (idx + 1) total "processing"
                    (saveCatalog (catalog.set idx (applyMatch item m)) (intf idx s)))).1, ?_⟩
              simp
            | succ j' =>
              have hj' : j' < rest.length := by
                simpa using Nat.lt_of_succ_lt_succ hj
              have hgood' : isUnavailable ((rest.get ⟨j', hj'⟩).ytname) = true ∨
                  lk ((idx + 1) + j') ≠ LookupOutcome.err := by
                rcases hgood with h | h
                · left
                  simpa using h
                · right
                  have harith : idx + 1 + j' = idx + (j' + 1) := by omega
                  rw [harith]
                  exact h
              obtain ⟨pre, c, post, hdec⟩ :=
                ih (idx + 1) (catalog.set idx (applyMatch item m)) _ hres j' hj' hgood'
              refine ⟨Ev.lookup idx item.ytname ::
                Ev.saveCat (catalog.set idx (applyMatch item m)) ::
                Ev.saveProg (idx + 1) total "processing" :: pre, c, post, ?_⟩
              have harith : idx + 1 + j' + 1 = idx + (j' + 1) + 1 := by omega
              rw [harith] at hdec
              simp [hdec]

/-- An entry that is not removed/private and whose lookup raises is *not*
persisted: no Progress Record with its advanced cursor (as a `processing`
write) ever appears in the loop's trace — the `except ... continue`
(server.py lines 173-174) skips the `saveCatalog`/`saveProgress` calls of
that iteration. -/
theorem loop_err_no_persist (lk : Nat → LookupOutcome) (intf : Nat → Store → Store)
    (total : Nat) :
    ∀ (rest : List Entry) (idx : Nat) (catalog : List Entry) (s : Store),
      idx + rest.length = total →
      ∀ (j : Nat) (hj : j < rest.length),
        isUnavailable ((rest.get ⟨j, hj⟩).ytname) = false →
        lk (idx + j) = LookupOutcome.err →
        Ev.saveProg (idx + j + 1) total "processing" ∉
          (processPlaylistLoop lk intf total idx rest catalog s).1 := by
  intro rest
  induction rest with
  | nil =>
    intro idx catalog s _ j hj
    exact absurd hj (by simp)
  | cons item rest ih =>
    intro idx catalog s htot j hj hunav hlkerr hmem
    simp only [List.length_cons] at htot
    have htot' : (idx + 1) + rest.length = total := by omega
    cases hp : getProgress (intf idx s) with
    | none =>
      rw [loop_cancel_none_eq _ _ _ _ _ _ _ _ hp] at hmem
      exact absurd hmem (List.not_mem_nil _)
    | some p =>
      by_cases hle : p.activeConnections ≤ 0
      · rw [loop_cancel_conns_eq _ _ _ _ _ _ _ _ _ hp hle] at hmem
        exact absurd hmem (List.not_mem_nil _)
      · cases hskip : isUnavailable item.ytname with
        | true =>
          cases j with
          | zero =>
            have h0 : isUnavailable item.ytname = false := by simpa using hunav
            rw [hskip] at h0
            exact Bool.noConfusion h0
          | succ j' =>
            rw [loop_skip_eq _ _ _ _ _ _ _ _ _ hp hle hskip] at hmem
            dsimp only at hmem
            rcases List.mem_cons.mp hmem with h | h
            · exact Ev.noConfusion h
            rcases List.mem_cons.mp h with h | h
            · simp only [Ev.saveProg.injEq] at h
              omega
            · have hj' : j' < rest.length := by
                simpa using Nat.lt_of_succ_lt_succ hj
              have harith : idx + (j' + 1) + 1 = (idx + 1) + j' + 1 := by omega
              rw [harith] at h
              exact ih (idx + 1) catalog _ htot' j' hj' (by simpa using hunav)
                (by have : (idx + 1) + j' = idx + (j' + 1) := by omega
                    rw [this]
                    exact hlkerr) h
        | false =>
          cases hlk : lk idx with
          | err =>
            rw [loop_err_eq _ _ _ _ _ _ _ _ _ hp hle hskip hlk] at hmem
            dsimp only at hmem
            rcases List.mem_cons.mp hmem with h | h
            · exact Ev.noConfusion h
            cases j with
            | zero =>
              have hpair : ((idx + 0 + 1 : Nat), ("processing" : String)) ∈ progPairs
                  (processPlaylistLoop lk intf total (idx + 1) rest catalog (intf idx s)).1 :=
                List.mem_filterMap.mpr ⟨_, h, rfl⟩
              have := (loop_progPairs_facts lk intf total rest (idx + 1) catalog _ htot'
                _ hpair).2.2 rfl
              omega
            | succ j' =>
              have hj' : j' < rest.length := by
                simpa using Nat.lt_of_succ_lt_succ hj
              have harith : idx + (j' + 1) + 1 = (idx + 1) + j' + 1 := by omega
              rw [harith] at h
              exact ih (idx + 1) catalog _ htot' j' hj' (by simpa using hunav)
                (by have : (idx + 1) + j' = idx + (j' + 1) := by omega
                    rw [this]
                    exact hlkerr) h
          | noMatch =>
            cases j with
            | zero =>
              rw [show idx + 0 = idx from rfl] at hlkerr
              rw [hlkerr] at hlk
              exact LookupOutcome.noConfusion hlk
            | succ j' =>
              rw [loop_noMatch_eq _ _ _ _ _ _ _ _ _ hp hle hskip hlk] at hmem
              dsimp only at hmem
              rcases List.mem_cons.mp hmem with h | h
              · exact Ev.noConfusion h
              rcases List.mem_cons.mp h with h | h
              · exact Ev.noConfusion h
              rcases List.mem_cons.mp h with h | h
              · simp only [Ev.saveProg.injEq] at h
                omega
              · have hj' : j' < rest.length := by
                  simpa using Nat.lt_of_succ_lt_succ hj
                have harith : idx + (j' + 1) + 1 = (idx + 1) + j' + 1 := by omega
                rw [harith] at h
                exact ih (idx + 1) catalog _ htot' j' hj' (by simpa using hunav)
                  (by have : (idx + 1) + j' = idx + (j' + 1) := by omega
                      rw [this]
                      exact hlkerr) h
          | found m =>
            cases j with
            | zero =>
              rw [show idx + 0 = idx from rfl] at hlkerr
              rw [hlkerr] at hlk
              exact LookupOutcome.noConfusion hlk
            | succ j' =>
              rw [loop_found_eq _ _ _ _ _ _ _ _ _ _ hp hle hskip hlk] at hmem
              dsimp only at hmem
              rcases List.mem_cons.mp hmem with h | h
              · exact Ev.noConfusion h
              rcases List.mem_cons.mp h with h | h
              · exact Ev.noConfusion h
              rcases List.mem_cons.mp h with h | h
              · simp only [Ev.saveProg.injEq] at h
                omega
              · have hj' : j' < rest.length := by
                  simpa using Nat.lt_of_succ_lt_succ hj
                have harith : idx + (j' + 1) + 1 = (idx + 1) + j' + 1 := by omega
                rw [harith] at h
                exact ih (idx + 1) (catalog.set idx (applyMatch item m)) _ htot' j' hj'
                  (by simpa using hunav)
                  (by have : (idx + 1) + j' = idx + (j' + 1) := by omega
                      rw [this]
                      exact hlkerr) h

/-! ## Claim C2 (corrected) -/

/-- Counterexample to C2 as stated: a one-entry playlist whose single
lookup raises.  The run completes (the final `completed` record has
cursor 1, so entry 0 was counted), yet the trace contains *no* snapshot
write at all and no Progress Record with `currentItem = 1` and status
`processing`: the `except ... continue` (server.py line 173-174) skipped
that entry's persist step, contradicting "after every entry — including
one whose metadata lookup failed — the run persists the full catalog
snapshot and a Progress Record with currentItem = i+1". -/
theorem claim2_counterexample :
    (processPlaylist (some [rawSongA]) lookupAllErr quiescent oneViewer).2.2 =
      some [mkEntry rawSongA] ∧
    noSnapshotWrites (processPlaylist (some [rawSongA]) lookupAllErr quiescent
      oneViewer).1 = true ∧
    (processPlaylist (some [rawSongA]) lookupAllErr quiescent oneViewer).1.contains
      (Ev.saveProg 1 1 "processing") = false := by
  decide

/-- C2 as amended: during one enrichment run that is never cancelled,
after every entry that is enriched, skipped as removed/private, or whose
lookup completes with no usable match, the run persists the full snapshot
immediately followed by a Progress Record with `currentItem = i+1` before
moving on; but an entry whose lookup *raises* is skipped by
`except ... continue` without its persist step: no `processing` Progress
Record with `currentItem = i+1` is ever written in that run. -/
theorem claim2_persist_per_entry (raws : List RawItem) (lk : Nat → LookupOutcome)
    (intf : Nat → Store → Store) (s : Store) (idx : Nat) (hidx : idx < raws.length)
    (hres : (processPlaylist (some raws) lk intf s).2.2 ≠ none) :
    ((isUnavailable ((raws.get ⟨idx, hidx⟩).title) = true ∨
        lk idx ≠ LookupOutcome.err) →
      ∃ pre c post,
        (processPlaylist (some raws) lk intf s).1 =
          pre ++ Ev.saveCat c ::
            Ev.saveProg (idx + 1) raws.length "processing" :: post) ∧
    (isUnavailable ((raws.get ⟨idx, hidx⟩).title) = false →
      lk idx = LookupOutcome.err →
      Ev.saveProg (idx + 1) raws.length "processing" ∉
        (processPlaylist (some raws) lk intf s).1) := by
  have hne : raws ≠ [] := by
    intro h
    rw [h] at hidx
    exact absurd hidx (by simp)
  rw [processPlaylist_run_eq _ _ _ _ hne] at hres ⊢
  dsimp only at hres ⊢
  have hj : idx < (raws.map mkEntry).length := by simpa using hidx
  have hyt : ((raws.map mkEntry).get ⟨idx, hj⟩).ytname = (raws.get ⟨idx, hidx⟩).title := by
    simp [mkEntry]
  have htot : 0 + (raws.map mkEntry).length = raws.length := by simp
  constructor
  · intro hgood
    have hgood' : isUnavailable (((raws.map mkEntry).get ⟨idx, hj⟩).ytname) = true ∨
        lk (0 + idx) ≠ LookupOutcome.err := by
      rw [hyt, Nat.zero_add]
      exact hgood
    obtain ⟨pre, c, post, hdec⟩ := loop_good_persist lk intf raws.length
      (raws.map mkEntry) 0 (raws.map mkEntry)
      (saveProgress 0 raws.length "processing" s) hres idx hj hgood'
    rw [Nat.zero_add] at hdec
    exact ⟨Ev.fetch :: Ev.saveProg 0 raws.length "processing" :: pre, c, post,
      by simp [hdec]⟩
  · intro hunav hlkerr hmem
    rcases List.mem_cons.mp hmem with h | h
    · exact Ev.noConfusion h
    rcases List.mem_cons.mp h with h | h
    · simp only [Ev.saveProg.injEq] at h
      omega
    · have := loop_err_no_persist lk intf raws.length (raws.map mkEntry) 0
        (raws.map mkEntry) (saveProgress 0 raws.length "processing" s) htot idx hj
        (by rw [hyt]; exact hunav) (by rw [Nat.zero_add]; exact hlkerr)
      rw [Nat.zero_add] at this
      exact this h

/-- Witness for C2 (amended) at a concrete two-entry run whose first
lookup raises and whose second entry is a private video: the second entry
has its persist pair, the first has no persist write. -/
theorem claim2_witness :
    (∃ pre c post,
       (processPlaylist (some [rawSongA, rawPrivate]) lookupAllErr quiescent
         oneViewer).1 =
         pre ++ Ev.saveCat c :: Ev.saveProg 2 2 "processing" :: post) ∧
    Ev.saveProg 1 2 "processing" ∉
      (processPlaylist (some [rawSongA, rawPrivate]) lookupAllErr quiescent
        oneViewer).1 :=
  ⟨(claim2_persist_per_entry [rawSongA, rawPrivate] lookupAllErr quiescent oneViewer 1
      (by decide) (by decide)).1 (Or.inl (by decide)),
   (claim2_persist_per_entry [rawSongA, rawPrivate] lookupAllErr quiescent oneViewer 0
      (by decide) (by decide)).2 (by decide) rfl⟩

/-- A completing loop never modifies catalog positions below its starting
index. -/
theorem loop_untouched_below (lk : Nat → LookupOutcome) (intf : Nat → Store → Store)
    (total : Nat) :
    ∀ (rest : List Entry) (idx : Nat) (catalog : List Entry) (s : Store)
      (cat' : List Entry),
      (processPlaylistLoop lk intf total idx rest catalog s).2.2 = some cat' →
      ∀ k, k < idx → cat'[k]? = catalog[k]? := by
  intro rest
  induction rest with
  | nil =>
    intro idx catalog s cat' hres k _
    rw [loop_nil_eq] at hres
    dsimp only at hres
    cases hres
    rfl
  | cons item rest ih =>
    intro idx catalog s cat' hres k hk
    cases hp : getProgress (intf idx s) with
    | none =>
      rw [loop_cancel_none_eq _ _ _ _ _ _ _ _ hp] at hres
      exact Option.noConfusion hres
    | some p =>
      by_cases hle : p.activeConnections ≤ 0
      · rw [loop_cancel_conns_eq _ _ _ _ _ _ _ _ _ hp hle] at hres
        exact Option.noConfusion hres
      · cases hskip : isUnavailable item.ytname with
        | true =>
          rw [loop_skip_eq _ _ _ _ _ _ _ _ _ hp hle hskip] at hres
          dsimp only at hres
          exact ih (idx + 1) catalog _ cat' hres k (by omega)
        | false =>
          cases hlk : lk idx with
          | err =>
            rw [loop_err_eq _ _ _ _ _ _ _ _ _ hp hle hskip hlk] at hres
            dsimp only at hres
            exact ih (idx + 1) catalog _ cat' hres k (by omega)
          | noMatch =>
            rw [loop_noMatch_eq _ _ _ _ _ _ _ _ _ hp hle hskip hlk] at hres
            dsimp only at hres
            exact ih (idx + 1) catalog _ cat' hres k (by omega)
          | found m =>
            rw [loop_found_eq _ _ _ _ _ _ _ _ _ _ hp hle hskip hlk] at hres
            dsimp only at hres
            have := ih (idx + 1) (catalog.set idx (applyMatch item m)) _ cat' hres k (by omega)
            rw [this, List.getElem?_set_ne (by omega : idx ≠ k)]

/-- A completing loop leaves every removed/private entry exactly as it
found it in the working catalog. -/
theorem loop_skip_untouched (lk : Nat → LookupOutcome) (intf : Nat → Store → Store)
    (total : Nat) :
    ∀ (rest : List Entry) (idx : Nat) (catalog : List Entry) (s : Store)
      (cat' : List Entry),
      (processPlaylistLoop lk intf total idx rest catalog s).2.2 = some cat' →
      ∀ (j : Nat) (hj : j < rest.length),
        isUnavailable ((rest.get ⟨j, hj⟩).ytname) = true →
        cat'[idx + j]? = catalog[idx + j]? := by
  intro rest
  induction rest with
  | nil =>
    intro idx catalog s cat' _ j hj
    exact absurd hj (by simp)
  | cons item rest ih =>
    intro idx catalog s cat' hres j hj hunav
    cases hp : getProgress (intf idx s) with
    | none =>
      rw [loop_cancel_none_eq _ _ _ _ _ _ _ _ hp] at hres
      exact Option.noConfusion hres
    | some p =>
      by_cases hle : p.activeConnections ≤ 0
      · rw [loop_cancel_conns_eq _ _ _ _ _ _ _ _ _ hp hle] at hres
        exact Option.noConfusion hres
      · cases hskip : isUnavailable item.ytname with
        | true =>
          rw [loop_skip_eq _ _ _ _ _ _ _ _ _ hp hle hskip] at hres
          dsimp only at hres
          cases j with
          | zero =>
            exact loop_untouched_below lk intf total rest (idx + 1) catalog _ cat'
              hres (idx + 0) (by omega)
          | succ j' =>
            have hj' : j' < rest.length := by
              simpa using Nat.lt_of_succ_lt_succ hj
            have harith : idx + (j' + 1) = (idx + 1) + j' := by omega
            rw [harith]
            exact ih (idx + 1) catalog _ cat' hres j' hj' (by simpa using hunav)
        | false =>
          cases j with
          | zero =>
            have h0 : isUnavailable item.ytname = true := by simpa using hunav
            rw [hskip] at h0
            exact Bool.noConfusion h0
          | succ j' =>
            have hj' : j' < rest.length := by
              simpa using Nat.lt_of_succ_lt_succ hj
            have harith : idx + (j' + 1) = (idx + 1) + j' := by omega
            cases hlk : lk idx with
            | err =>
              rw [loop_err_eq _ _ _ _ _ _ _ _ _ hp hle hskip hlk] at hres
              dsimp only at hres
              rw [harith]
              exact ih (idx + 1) catalog _ cat' hres j' hj' (by simpa using hunav)
            | noMatch =>
              rw [loop_noMatch_eq _ _ _ _ _ _ _ _ _ hp hle hskip hlk] at hres
              dsimp only at hres
              rw [harith]
              exact ih (idx + 1) catalog _ cat' hres j' hj' (by simpa using hunav)
            | found m =>
              rw [loop_found_eq _ _ _ _ _ _ _ _ _ _ hp hle hskip hlk] at hres
              dsimp only at hres
              have := ih (idx + 1) (catalog.set idx (applyMatch item m)) _ cat' hres j' hj'
                (by simpa using hunav)
              rw [harith, this, List.getElem?_set_ne (by omega : idx ≠ idx + 1 + j')]

/-- Every lookup event the loop emits from index `idx` on carries an entry
index at least `idx`. -/
theorem loop_lookup_lower (lk : Nat → LookupOutcome) (intf : Nat → Store → Store)
    (total : Nat) :
    ∀ (rest : List Entry) (idx : Nat) (catalog : List Entry) (s : Store) (i : Nat)
      (q : String),
      Ev.lookup i q ∈ (processPlaylistLoop lk intf total idx rest catalog s).1 →
      idx ≤ i := by
  intro rest
  induction rest with
  | nil =>
    intro idx catalog s i q hmem
    rw [loop_nil_eq] at hmem
    dsimp only at hmem
    rcases List.mem_cons.mp hmem with h | h
    · exact Ev.noConfusion h
    · exact absurd h (List.not_mem_nil _)
  | cons item rest ih =>
    intro idx catalog s i q hmem
    cases hp : getProgress (intf idx s) with
    | none =>
      rw [loop_cancel_none_eq _ _ _ _ _ _ _ _ hp] at hmem
      exact absurd hmem (List.not_mem_nil _)
    | some p =>
      by_cases hle : p.activeConnections ≤ 0
      · rw [loop_cancel_conns_eq _ _ _ _ _ _ _ _ _ hp hle] at hmem
        exact absurd hmem (List.not_mem_nil _)
      · cases hskip : isUnavailable item.ytname with
        | true =>
          rw [loop_skip_eq _ _ _ _ _ _ _ _ _ hp hle hskip] at hmem
          dsimp only at hmem
          rcases List.mem_cons.mp hmem with h | h
          · exact Ev.noConfusion h
          rcases List.mem_cons.mp h with h | h
          · exact Ev.noConfusion h
          · exact le_trans (Nat.le_succ idx) (ih (idx + 1) catalog _ i q h)
        | false =>
          cases hlk : lk idx with
          | err =>
            rw [loop_err_eq _ _ _ _ _ _ _ _ _ hp hle hskip hlk] at hmem
            dsimp only at hmem
            rcases List.mem_cons.mp hmem with h | h
            · cases h
              exact le_refl idx
            · exact le_trans (Nat.le_succ idx) (ih (idx + 1) catalog _ i q h)
          | noMatch =>
            rw [loop_noMatch_eq _ _ _ _ _ _ _ _ _ hp hle hskip hlk] at hmem
            dsimp only at hmem
            rcases List.mem_cons.mp hmem with h | h
            · cases h
              exact le_refl idx
            rcases List.mem_cons.mp h with h | h
            · exact Ev.noConfusion h
            rcases List.mem_cons.mp h with h | h
            · exact Ev.noConfusion h
            · exact le_trans (Nat.le_succ idx) (ih (idx + 1) catalog _ i q h)
          | found m =>
            rw [loop_found_eq _ _ _ _ _ _ _ _ _ _ hp hle hskip hlk] at hmem
            dsimp only at hmem
            rcases List.mem_cons.mp hmem with h | h
            · cases h
              exact le_refl idx
            rcases List.mem_cons.mp h with h | h
            · exact Ev.noConfusion h
            rcases List.mem_cons.mp h with h | h
            · exact Ev.noConfusion h
            · exact le_trans (Nat.le_succ idx) (ih (idx + 1) (catalog.set idx (applyMatch item m)) _ i q h)

/-- The loop performs no metadata lookup for a removed/private entry: no
lookup event carries that entry's index. -/
theorem loop_skip_no_lookup (lk : Nat → LookupOutcome) (intf : Nat → Store → Store)
    (total : Nat) :
    ∀ (rest : List Entry) (idx : Nat) (catalog : List Entry) (s : Store)
      (j : Nat) (hj : j < rest.length),
      isUnavailable ((rest.get ⟨j, hj⟩).ytname) = true →
      ∀ q, Ev.lookup (idx + j) q ∉
        (processPlaylistLoop lk intf total idx rest catalog s).1 := by
  intro rest
  induction rest with
  | nil =>
    intro idx catalog s j hj
    exact absurd hj (by simp)
  | cons item rest ih =>
    intro idx catalog s j hj hunav q hmem
    cases hp : getProgress (intf idx s) with
    | none =>
      rw [loop_cancel_none_eq _ _ _ _ _ _ _ _ hp] at hmem
      exact absurd hmem (List.not_mem_nil _)
    | some p =>
      by_cases hle : p.activeConnections ≤ 0
      · rw [loop_cancel_conns_eq _ _ _ _ _ _ _ _ _ hp hle] at hmem
        exact absurd hmem (List.not_mem_nil _)
      · cases hskip : isUnavailable item.ytname with
        | true =>
          rw [loop_skip_eq _ _ _ _ _ _ _ _ _ hp hle hskip] at hmem
          dsimp only at hmem
          rcases List.mem_cons.mp hmem with h | h
          · exact Ev.noConfusion h
          rcases List.mem_cons.mp h with h | h
          · exact Ev.noConfusion h
          cases j with
          | zero =>
            have := loop_lookup_lower lk intf total rest (idx + 1) catalog _ (idx + 0) q h
            omega
          | succ j' =>
            have hj' : j' < rest.length := by
              simpa using Nat.lt_of_succ_lt_succ hj
            have harith : idx + (j' + 1) = (idx + 1) + j' := by omega
            rw [harith] at h
            exact ih (idx + 1) catalog _ j' hj' (by simpa using hunav) q h
        | false =>
          cases j with
          | zero =>
            have h0 : isUnavailable item.ytname = true := by simpa using hunav
            rw [hskip] at h0
            exact Bool.noConfusion h0
          | succ j' =>
            have hj' : j' < rest.length := by
              simpa using Nat.lt_of_succ_lt_succ hj
            have harith : idx + (j' + 1) = (idx + 1) + j' := by omega
            cases hlk : lk idx with
            | err =>
              rw [loop_err_eq _ _ _ _ _ _ _ _ _ hp hle hskip hlk] at hmem
              dsimp only at hmem
              rcases List.mem_cons.mp hmem with h | h
              · simp only [Ev.lookup.injEq] at h
                omega
              · rw [harith] at h
                exact ih (idx + 1) catalog _ j' hj' (by simpa using hunav) q h
            | noMatch =>
              rw [loop_noMatch_eq _ _ _ _ _ _ _ _ _ hp hle hskip hlk] at hmem
              dsimp only at hmem
              rcases List.mem_cons.mp hmem with h | h
              · simp only [Ev.lookup.injEq] at h
                omega
              rcases List.mem_cons.mp h with h | h
              · exact Ev.noConfusion h
              rcases List.mem_cons.mp h with h | h
              · exact Ev.noConfusion h
              · rw [harith] at h
                exact ih (idx + 1) catalog _ j' hj' (by simpa using hunav) q h
            | found m =>
              rw [loop_found_eq _ _ _ _ _ _ _ _ _ _ hp hle hskip hlk] at hmem
              dsimp only at hmem
              rcases List.mem_cons.mp hmem with h | h
              · simp only [Ev.lookup.injEq] at h
                omega
              rcases List.mem_cons.mp h with h | h
              · exact Ev.noConfusion h
              rcases List.mem_cons.mp h with h | h
              · exact Ev.noConfusion h
              · rw [harith] at h
                exact ih (idx + 1) (catalog.set idx (applyMatch item m)) _ j' hj'
                  (by simpa using hunav) q h

/-! ## Claim C8 -/

/-- C8: in a run that completes with a final snapshot, every entry whose
source title marks a removed or private video gets no metadata lookup (no
lookup event carries its index), keeps exactly its fetch-time entry — in
particular the enrichment defaults `score = 0`, `title = ''`,
`artist = ''`, `mbid = ''` — in the final snapshot, and is still counted
as processed: the cursor advances past it with a `currentItem = i + 1`
Progress write. -/
theorem claim8_unavailable_skipped (raws : List RawItem) (lk : Nat → LookupOutcome)
    (intf : Nat → Store → Store) (s : Store) (idx : Nat) (hidx : idx < raws.length)
    (cat' : List Entry)
    (hunav : isUnavailable ((raws.get ⟨idx, hidx⟩).title) = true)
    (hres : (processPlaylist (some raws) lk intf s).2.2 = some cat') :
    cat'[idx]? = some (mkEntry (raws.get ⟨idx, hidx⟩)) ∧
    (mkEntry (raws.get ⟨idx, hidx⟩)).score = 0 ∧
    (mkEntry (raws.get ⟨idx, hidx⟩)).title = "" ∧
    (mkEntry (raws.get ⟨idx, hidx⟩)).artist = "" ∧
    (mkEntry (raws.get ⟨idx, hidx⟩)).mbid = "" ∧
    (∀ q, Ev.lookup idx q ∉ (processPlaylist (some raws) lk intf s).1) ∧
    Ev.saveProg (idx + 1) raws.length "processing" ∈
      (processPlaylist (some raws) lk intf s).1 := by
  have hne : raws ≠ [] := by
    intro h
    rw [h] at hidx
    exact absurd hidx (by simp)
  rw [processPlaylist_run_eq _ _ _ _ hne] at hres ⊢
  dsimp only at hres ⊢
  have hj : idx < (raws.map mkEntry).length := by simpa using hidx
  have hyt : ((raws.map mkEntry).get ⟨idx, hj⟩).ytname = (raws.get ⟨idx, hidx⟩).title := by
    simp [mkEntry]
  refine ⟨?_, rfl, rfl, rfl, rfl, ?_, ?_⟩
  · have huntouched := loop_skip_untouched lk intf raws.length (raws.map mkEntry) 0
      (raws.map mkEntry) (saveProgress 0 raws.length "processing" s) cat' hres idx hj
      (by rw [hyt]; exact hunav)
    rw [Nat.zero_add] at huntouched
    rw [huntouched, List.getElem?_map, List.getElem?_eq_getElem hidx]
    rfl
  · intro q hmem
    rcases List.mem_cons.mp hmem with h | h
    · exact Ev.noConfusion h
    rcases List.mem_cons.mp h with h | h
    · exact Ev.noConfusion h
    · have := loop_skip_no_lookup lk intf raws.length (raws.map mkEntry) 0
        (raws.map mkEntry) (saveProgress 0 raws.length "processing" s) idx hj
        (by rw [hyt]; exact hunav) q
      rw [Nat.zero_add] at this
      exact this h
  · have hres' : (processPlaylistLoop lk intf raws.length 0 (raws.map mkEntry)
        (raws.map mkEntry) (saveProgress 0 raws.length "processing" s)).2.2 ≠ none := by
      rw [hres]
      exact Option.noConfusion
    obtain ⟨pre, c, post, hdec⟩ := loop_good_persist lk intf raws.length
      (raws.map mkEntry) 0 (raws.map mkEntry)
      (saveProgress 0 raws.length "processing" s) hres' idx hj
      (Or.inl (by rw [hyt]; exact hunav))
    rw [Nat.zero_add] at hdec
    rw [hdec]
    simp

/-- Witness for C8: the spec's concrete scenario — a three-item playlist
whose middle item is a private video; entry 0 is enriched from a match,
entry 2 finds no match, entry 1 is skipped with its defaults intact. -/
theorem claim8_witness :
    ((processPlaylist (some [rawSongA, rawPrivate, rawSongC]) lookupFound0 quiescent
        oneViewer).2.2.getD [])[1]? = some (mkEntry rawPrivate) ∧
    (mkEntry rawPrivate).score = 0 ∧
    (mkEntry rawPrivate).title = "" ∧
    (mkEntry rawPrivate).artist = "" ∧
    (mkEntry rawPrivate).mbid = "" ∧
    (∀ q, Ev.lookup 1 q ∉
      (processPlaylist (some [rawSongA, rawPrivate, rawSongC]) lookupFound0 quiescent
        oneViewer).1) ∧
    Ev.saveProg 2 3 "processing" ∈
      (processPlaylist (some [rawSongA, rawPrivate, rawSongC]) lookupFound0 quiescent
        oneViewer).1 :=
  claim8_unavailable_skipped [rawSongA, rawPrivate, rawSongC] lookupFound0 quiescent
    oneViewer 1 (by decide) _ (by decide) (by decide)

/-- Lemma: `takeWhile` collects exactly the identifier run when everything in
`pid` is an identifier character and `post` does not start with one. -/
theorem takeWhile_id_append (pid post : List Char)
    (h2 : ∀ c ∈ pid, isIdChar c = true) (h3 : headNotId post = true) :
    (pid ++ post).takeWhile isIdChar = pid := by
  induction pid with
  | nil =>
    cases post with
    | nil => rfl
    | cons c post' =>
      have hc : isIdChar c = false := by
        have := h3
        simp only [headNotId, Bool.not_eq_true'] at this
        exact this
      simp [List.takeWhile_cons, hc]
  | cons c pid ih =>
    have hc : isIdChar c = true := h2 c (List.mem_cons_self c pid)
    simp only [List.cons_append, List.takeWhile_cons, hc, if_true]
    rw [ih (fun d hd => h2 d (List.mem_cons_of_mem c hd))]

/-- A match at the start of `list=` followed by the identifier run yields
exactly that run. -/
theorem matchHere_pos (pid post : List Char) (h1 : pid ≠ [])
    (h2 : ∀ c ∈ pid, isIdChar c = true) (h3 : headNotId post = true) :
    matchHere (listEqToken ++ (pid ++ post)) = some pid := by
  have hpre : listEqToken.isPrefixOf (listEqToken ++ (pid ++ post)) = true := by
    simp [listEqToken, List.isPrefixOf]
  have hdrop : (listEqToken ++ (pid ++ post)).drop 5 = pid ++ post :=
    List.drop_left listEqToken (pid ++ post)
  have hempty : pid.isEmpty = false := by
    cases pid with
    | nil => exact absurd rfl h1
    | cons a l => rfl
  simp only [matchHere, hpre, if_true, hdrop,
    takeWhile_id_append pid post h2 h3, hempty, Bool.false_eq_true, if_false]

/-- If no position of `cs` matches, the scan fails. -/
theorem findListId_none_of (cs : List Char)
    (h : ∀ k, matchHere (cs.drop k) = none) : findListId cs = none := by
  induction cs with
  | nil => rfl
  | cons c rest ih =>
    have h0 : matchHere (c :: rest) = none := by
      have := h 0
      simpa using this
    simp only [findListId, h0]
    exact ih fun k => by
      have := h (k + 1)
      simpa using this

/-- If position `k` matches and no earlier position does, the scan
returns position `k`'s group: the leftmost-match semantics of
`re.search`. -/
theorem findListId_some_of (cs : List Char) :
    ∀ (k : Nat) (g : List Char), matchHere (cs.drop k) = some g →
      (∀ j, j < k → matchHere (cs.drop j) = none) → findListId cs = some g := by
  induction cs with
  | nil =>
    intro k g hm _
    rw [List.drop_nil] at hm
    exact Option.noConfusion hm
  | cons c rest ih =>
    intro k g hm hnone
    cases k with
    | zero =>
      rw [List.drop_zero] at hm
      simp only [findListId, hm]
    | succ k' =>
      have h0 : matchHere (c :: rest) = none := by
        have := hnone 0 (Nat.succ_pos k')
        simpa using this
      simp only [findListId, h0]
      rw [List.drop_succ_cons] at hm
      exact ih k' g hm fun j hj => by
        have := hnone (j + 1) (by omega)
        simpa using this

/-- A bounded no-match check extends to all positions (dropping past the
end yields the empty list, which never matches). -/
theorem matchHere_none_of_bounded (cs : List Char)
    (h : ∀ k, k < cs.length → matchHere (cs.drop k) = none) :
    ∀ k, matchHere (cs.drop k) = none := by
  intro k
  by_cases hk : k < cs.length
  · exact h k hk
  · rw [List.drop_eq_nil_of_le (by omega)]
    rfl

/-! ## Claim C9 -/

/-- C9: playlist-identifier extraction.  (1) If the URL decomposes as
`pre ++ "list=" ++ id ++ post` where `id` is a non-empty run of
letters/digits/`_`/`-`, the run is maximal (`post` does not continue it)
and this is the leftmost match (no position inside `pre` matches), then
extraction returns exactly `id`.  (2) If no position of the URL matches
`list=<id>`, extraction raises the client-input error carried with HTTP
status 400. -/
theorem claim9_playlist_id_extraction :
    (∀ (pre pid post : List Char),
       pid ≠ [] →
       (∀ c ∈ pid, isIdChar c = true) →
       headNotId post = true →
       (∀ j, j < pre.length →
         matchHere ((pre ++ listEqToken ++ pid ++ post).drop j) = none) →
       filterPlaylistId (String.mk (pre ++ listEqToken ++ pid ++ post)) =
         Except.ok (String.mk pid)) ∧
    (∀ url : String, (∀ k, matchHere (url.data.drop k) = none) →
       filterPlaylistId url =
         Except.error ⟨"Invalid YouTube playlist URL", 400⟩) := by
  constructor
  · intro pre pid post h1 h2 h3 h4
    have hm : matchHere ((pre ++ listEqToken ++ pid ++ post).drop pre.length) =
        some pid := by
      rw [show pre ++ listEqToken ++ pid ++ post =
          pre ++ (listEqToken ++ (pid ++ post)) from by simp [List.append_assoc]]
      rw [List.drop_left]
      exact matchHere_pos pid post h1 h2 h3
    have hfind := findListId_some_of (pre ++ listEqToken ++ pid ++ post)
      pre.length pid hm h4
    simp only [filterPlaylistId]
    rw [hfind]
  · intro url h
    simp only [filterPlaylistId]
    rw [findListId_none_of url.data h]

/-- Witness for C9: a realistic playlist URL and a URL with no `list=`
token. -/
theorem claim9_witness :
    filterPlaylistId (String.mk ("watch?v=1&".data ++ listEqToken ++
      "PL_a-9".data ++ "&t=2".data)) = Except.ok (String.mk "PL_a-9".data) ∧
    filterPlaylistId "nolisthere" =
      Except.error ⟨"Invalid YouTube playlist URL", 400⟩ :=
  ⟨claim9_playlist_id_extraction.1 "watch?v=1&".data "PL_a-9".data "&t=2".data
      (by decide) (by decide) (by decide) (by decide),
   claim9_playlist_id_extraction.2 "nolisthere"
      (matchHere_none_of_bounded "nolisthere".data (by decide))⟩
